import Mathlib

/-!
Verification of the polygon extraction and point-in-polygon oracle of
the julia-polygon program (single source file main.cpp).

The development shallowly embeds the relevant C++ functions:

* struct Polygon with its vertex list, denominator, bounding box and
  the optional y jump table (prepareY / unPrepareY);
* point_in_polygonVH, the rectilinear even-odd ray cast (the fatal
  exit(99) on a diagonal edge is modelled as the distinguished result
  PIP.error, and the fuel-exhaustion value PIP.fuelout stands for a
  non-terminating jump chain, which never arises for tables built by
  prepareY);
* jsoracle, the multi-polygon oracle with its 5x5 neighborhood test;
* Polygon::add, Polygon::trimColinearStart, Polygon::isColinearFree,
  Polygon::isDiagonalFree;
* Polygon::save and Polygon::load together with models of the sscanf
  conversions they use (the range line holds four doubles that are
  never consulted by any verified operation, so that line is read and
  skipped; C++ fgets keeps the previous buffer on end of file, which
  the Reader model reproduces);
* the snippet-fusion loop and the boundary walk of floodFillPattern /
  buildPolygon over a Charmap canvas (the byte grid is modelled as a
  total function; the source performs unchecked index arithmetic).

Machine integers are modelled as Int; the coordinate values involved
are tiny compared to 2^31 in every statement below, so overflow is not
modelled.  double arguments of jsoracle are modelled as exact
rationals; jsoracle only consumes them through floor(a * nenner).
-/

/-- Result values of the point-in-polygon tests: PIP_ERROR, PIP_UNKNOWN,
PIP_INTERIOR, PIP_BOUNDARY, PIP_EXTERIOR of main.cpp.  PIP.error also
stands for the exit(99) taken when a diagonal edge is met during the
walk.  PIP.fuelout is the embedding artifact for an unproductive jump
table (unreachable for tables produced by prepareY). -/
inductive PIP where
  | error
  | unknown
  | interior
  | boundary
  | exterior
  | fuelout
deriving DecidableEq, Repr

/-- struct PolygonPoint: one vertex, integer coordinates interpreted as
rationals with the polygon-wide denominator. -/
structure PolygonPoint where
  x : Int
  y : Int
deriving DecidableEq, Repr

/-- Default vertex used for out-of-range list reads (the C++ code never
performs such reads on the paths covered by the theorems below). -/
def pp0 : PolygonPoint := ⟨0, 0⟩

/-- struct Polygon: vertex list (pointcount = points.length), the
denominator nenner, the margin-expanded integer bounding box, and the
prepareY state (useprepare flag plus the jump table, modelled as a
total function on indices). -/
structure Polygon where
  points : List PolygonPoint
  nenner : Int
  xmin : Int
  xmax : Int
  ymin : Int
  ymax : Int
  useprepare : Bool
  yprepare : Nat → Nat

/-- minimumI of main.cpp. -/
def minimumI (a b : Int) : Int := if a < b then a else b

/-- maximumI of main.cpp. -/
def maximumI (a b : Int) : Int := if a > b then a else b

/-- Single-point update of a jump table, modelling one array store
yprepare[i] = v. -/
def updF (f : Nat → Nat) (i v : Nat) : Nat → Nat :=
  fun j => if j = i then v else f j

/-- Outcome of processing one edge inside the while loop of
point_in_polygonVH: either an early return or the updated parity. -/
inductive EdgeStep where
  | ret (r : PIP)
  | go (even : Bool)
deriving DecidableEq, Repr

/-- One iteration of the edge-walk body of point_in_polygonVH at index
i: the vertical branch (x equal), the horizontal branch (y equal), or
the fatal diagonal branch.  The parity flag even toggles according to
the vertex through-vs-touch rule.  In the horizontal vertex rule the
source sets y1 = points[i].y for i >= 1 and y1 = points[0].y for i = 0,
which coincide at i = 0, so y1 is always points[i].y. -/
def pipEdge (pts : List PolygonPoint) (ax ay : Int) (i : Nat) (even : Bool) : EdgeStep :=
  let pc := pts.length
  let pcur := pts.getD i pp0
  let pprev := pts.getD (i - 1) pp0
  if pcur.x = pprev.x then
    -- vertical line
    let miy := minimumI pcur.y pprev.y
    let may := maximumI pcur.y pprev.y
    if pcur.x = ax ∧ miy ≤ ay ∧ ay ≤ may then .ret .boundary
    else if ax < pcur.x ∧ miy ≤ ay ∧ ay ≤ may then
      if ay = pcur.y then
        let y0 := if i > 0 then (pts.getD (i - 1) pp0).y else (pts.getD (pc - 2) pp0).y
        let y1 := pcur.y
        let y2 := if i < pc - 1 then (pts.getD (i + 1) pp0).y else (pts.getD 1 pp0).y
        if (y0 < y1 ∧ y1 < y2) ∨ (y0 > y1 ∧ y1 > y2) then .go (!even) else .go even
      else if miy < ay ∧ ay < may then .go (!even)
      else .go even
    else .go even
  else if pcur.y = pprev.y then
    -- horizontal line
    let minx := minimumI pcur.x pprev.x
    let maxx := maximumI pcur.x pprev.x
    if pcur.y = ay ∧ minx ≤ ax ∧ ax ≤ maxx then .ret .boundary
    else if ay = pcur.y ∧ minx > ax then
      let y0 := if i > 1 then (pts.getD (i - 2) pp0).y else (pts.getD (pc - 2) pp0).y
      let y1 := pcur.y
      let y2 := if i < pc - 1 then (pts.getD (i + 1) pp0).y else (pts.getD 1 pp0).y
      if (y0 < y1 ∧ y1 < y2) ∨ (y0 > y1 ∧ y1 > y2) then .go (!even) else .go even
    else .go even
  else .ret .error

/-- Folds the edge-walk body over the list of visited indices, starting
from parity flag even; an empty remainder yields the final
exterior/interior verdict of point_in_polygonVH. -/
def pipRun (pts : List PolygonPoint) (ax ay : Int) : List Nat → Bool → PIP
  | [], even => if even then PIP.exterior else PIP.interior
  | i :: rest, even =>
    match pipEdge pts ax ay i even with
    | .ret r => r
    | .go e => pipRun pts ax ay rest e

/-- The sequence of indices visited by the while loop of
point_in_polygonVH: starting from i, while i < pointcount - 1 the next
index is nxt i (yprepare[i] when prepared, i + 1 otherwise) and the
loop breaks once the next index reaches pointcount.  Fuel bounds the
chain length; prepareY tables produce strictly increasing chains, so
sufficient fuel is never exhausted there. -/
def chainOf (nxt : Nat → Nat) (pc : Nat) : Nat → Nat → List Nat
  | 0, _ => []
  | fuel + 1, i =>
    if i < pc - 1 then
      let j := nxt i
      if pc ≤ j then [] else j :: chainOf nxt pc fuel j
    else []

/-- Indices visited by point_in_polygonVH on polygon p: the jump-table
chain when useprepare is set, the increment chain otherwise. -/
def walkIndices (p : Polygon) : List Nat :=
  if p.useprepare then chainOf p.yprepare p.points.length (p.points.length + 2) 0
  else chainOf (fun i => i + 1) p.points.length (p.points.length + 2) 0

/-- point_in_polygonVH of main.cpp: bounding-box fast path returning
exterior, then the even-odd edge walk. -/
def point_in_polygonVH (apg : Polygon) (ax ay : Int) : PIP :=
  if ax < apg.xmin ∨ ax > apg.xmax ∨ ay < apg.ymin ∨ ay > apg.ymax then PIP.exterior
  else
    if walkFuelOk apg then pipRun apg.points ax ay (walkIndices apg) true
    else PIP.fuelout
where
  /-- The chain fits in its fuel allowance; false only for degenerate
  hand-made jump tables on which the C++ loop would not terminate. -/
  walkFuelOk (p : Polygon) : Bool :=
    decide ((walkIndices p).length < p.points.length + 2)

/-- The y-band test of Polygon::prepareY for edge index i (BUFFER = 2):
the edge from points[i-1] to points[i] counts as relevant for query row
ay when its y-span meets [ay - 2, ay + 2]. -/
def relevantEdge (pts : List PolygonPoint) (ay : Int) (i : Nat) : Bool :=
  let yim := (pts.getD (i - 1) pp0).y
  let yi := (pts.getD i pp0).y
  decide ((yim ≤ ay + 2 ∧ yi ≥ ay - 2) ∨ (yim ≥ ay - 2 ∧ yi ≤ ay + 2))

/-- The for loop of Polygon::prepareY: walks the index list carrying li
(the last relevant index, none standing for the initial value -1) and
the table; a relevant index i is stored at position li (position 0 when
li is still -1). -/
def prepareYLoop (pts : List PolygonPoint) (ay : Int) :
    List Nat → Option Nat → (Nat → Nat) → Option Nat × (Nat → Nat)
  | [], li, arr => (li, arr)
  | i :: rest, li, arr =>
    if relevantEdge pts ay i then
      match li with
      | some l => prepareYLoop pts ay rest (some i) (updF arr l i)
      | none => prepareYLoop pts ay rest (some i) (updF arr 0 i)
    else prepareYLoop pts ay rest li arr

/-- Polygon::prepareY as a table transformer: run the loop over indices
1 .. pointcount-1 and finish by storing pointcount + 16 (a jump past
the end) at the last relevant index, or at 0 when none was relevant.
The initial table arr0 models the uninitialized allocation; positions
never written are never read by the chain. -/
def prepareYArr (pts : List PolygonPoint) (ay : Int) (arr0 : Nat → Nat) : Nat → Nat :=
  match prepareYLoop pts ay (List.range' 1 (pts.length - 1)) none arr0 with
  | (some l, arr) => updF arr l (pts.length + 16)
  | (none, arr) => updF arr 0 (pts.length + 16)

/-- Polygon::prepareY: sets useprepare and rebuilds the jump table for
query row ay. -/
def Polygon.prepareY (p : Polygon) (ay : Int) : Polygon :=
  { p with useprepare := true, yprepare := prepareYArr p.points ay p.yprepare }

/-- Polygon::unPrepareY: clears the useprepare flag (the table content
is retained but ignored). -/
def Polygon.unPrepareY (p : Polygon) : Polygon :=
  { p with useprepare := false }

/-- The sequence of table stores performed by prepareY, expressed along
the list of relevant indices: starting position s receives the first
relevant index, each relevant index receives its successor, and the
last one receives pc + 16. -/
def chainWrites (pc : Nat) (arr : Nat → Nat) (s : Nat) : List Nat → (Nat → Nat)
  | [] => updF arr s (pc + 16)
  | r :: rest => chainWrites pc (updF arr s r) r rest

/-- Polygon::isDiagonalFree, auxiliary recursion over consecutive
vertex pairs. -/
def diagFreeAux : List PolygonPoint → Bool
  | a :: b :: rest => (a.x == b.x || a.y == b.y) && diagFreeAux (b :: rest)
  | _ => true

/-- Polygon::isDiagonalFree of main.cpp: every consecutive vertex pair
shares an x or a y coordinate. -/
def Polygon.isDiagonalFree (p : Polygon) : Bool :=
  diagFreeAux p.points

/-- The colinearity pattern tested by Polygon::isColinearFree at one
index triple: a and b both share x with c, or both share y with c. -/
def colinearTriple (a b c : PolygonPoint) : Bool :=
  (a.x == c.x && b.x == c.x) || (a.y == c.y && b.y == c.y)

/-- Polygon::isColinearFree of main.cpp: no triple of consecutive
vertices is colinear, including the seam triple
(points[pointcount-2], points[0], points[1]). -/
def Polygon.isColinearFree (p : Polygon) : Bool :=
  let pts := p.points
  let pc := pts.length
  ((List.range' 2 (pc - 2)).all fun i =>
    !(colinearTriple (pts.getD (i - 2) pp0) (pts.getD (i - 1) pp0) (pts.getD i pp0))) &&
  !(colinearTriple (pts.getD (pc - 2) pp0) (pts.getD 0 pp0) (pts.getD 1 pp0))

/-- The guard of the while loop in Polygon::trimColinearStart: vertices
0, 1 and pointcount-2 all share x, or all share y. -/
def seamColinear (pts : List PolygonPoint) : Bool :=
  let pc := pts.length
  ((pts.getD 0 pp0).x == (pts.getD 1 pp0).x && (pts.getD 0 pp0).x == (pts.getD (pc - 2) pp0).x) ||
  ((pts.getD 0 pp0).y == (pts.getD 1 pp0).y && (pts.getD 0 pp0).y == (pts.getD (pc - 2) pp0).y)

/-- Sets the x coordinate of the vertex at index i (no-op out of
range), modelling a store points[i].x = v. -/
def setPtX (pts : List PolygonPoint) (i : Nat) (v : Int) : List PolygonPoint :=
  pts.set i { pts.getD i pp0 with x := v }

/-- The while loop of Polygon::trimColinearStart, exactly as written in
the source: while pointcount >= 3 and the seam is colinear, drop the
last vertex, then execute the two stores
points[0].x = points[pointcount-1].x and
points[1].x = points[pointcount-1].y (the second store writes a y value
into an x field and points[0].y is never updated; see the theorems on
claims C4 and C5).  Every iteration shortens the list by one, so fuel
equal to the initial length makes the recursion structural without
changing the result. -/
def trimLoopF : Nat → List PolygonPoint → List PolygonPoint
  | 0, pts => pts
  | fuel + 1, pts =>
    if 3 ≤ pts.length ∧ seamColinear pts = true then
      let pts1 := pts.take (pts.length - 1)
      let lastp := pts1.getD (pts1.length - 1) pp0
      let pts2 := setPtX pts1 0 lastp.x
      let pts3 := setPtX pts2 1 lastp.y
      trimLoopF fuel pts3
    else pts

/-- The trimColinearStart loop at its sufficient fuel. -/
def trimLoop (pts : List PolygonPoint) : List PolygonPoint :=
  trimLoopF pts.length pts

/-- Polygon::trimColinearStart of main.cpp. -/
def Polygon.trimColinearStart (p : Polygon) : Polygon :=
  { p with points := trimLoop p.points }

/-- The bounding-box expansion step shared by Polygon::add and
Polygon::load for every vertex after the first: each coordinate widens
the box by a margin of 8 rational units. -/
def bbUpdate (bb : Int × Int × Int × Int) (ax ay : Int) : Int × Int × Int × Int :=
  (if ax - 8 < bb.1 then ax - 8 else bb.1,
   if ax + 8 > bb.2.1 then ax + 8 else bb.2.1,
   if ay - 8 < bb.2.2.1 then ay - 8 else bb.2.2.1,
   if ay + 8 > bb.2.2.2 then ay + 8 else bb.2.2.2)

/-- Bounding box (xmin, xmax, ymin, ymax) computed for a vertex list
the way Polygon::load computes it: the first vertex initializes the box
without margin, later vertices expand it through bbUpdate.  An empty
list leaves the C++ fields uninitialized; the model uses zeros. -/
def loadBbox : List PolygonPoint → Int × Int × Int × Int
  | [] => (0, 0, 0, 0)
  | p :: rest => rest.foldl (fun bb q => bbUpdate bb q.x q.y) (p.x, p.x, p.y, p.y)

/-- The vertex-append step of Polygon::add: when the new vertex is
colinear with the last two (same x or same y), the last vertex is
overwritten instead of the list growing. -/
def addPts (pts : List PolygonPoint) (ax ay : Int) : List PolygonPoint :=
  if 2 ≤ pts.length then
    let b := pts.getD (pts.length - 1) pp0
    let a := pts.getD (pts.length - 2) pp0
    if (ax = b.x ∧ ax = a.x) ∨ (ay = b.y ∧ ay = a.y) then
      pts.take (pts.length - 1) ++ [⟨ax, ay⟩]
    else pts ++ [⟨ax, ay⟩]
  else pts ++ [⟨ax, ay⟩]

/-- Polygon::add of main.cpp: expands the bounding box (margin 8,
except that the very first vertex initializes it exactly) and appends
through addPts.  The geometric buffer growth is a memory detail with no
observable effect on the vertex list. -/
def Polygon.add (p : Polygon) (ax ay : Int) : Polygon :=
  let p1 :=
    if p.points.length = 0 then
      { p with xmin := ax, xmax := ax, ymin := ay, ymax := ay }
    else
      let bb := bbUpdate (p.xmin, p.xmax, p.ymin, p.ymax) ax ay
      { p with xmin := bb.1, xmax := bb.2.1, ymin := bb.2.2.1, ymax := bb.2.2.2 }
  { p1 with points := addPts p1.points ax ay }

/-- The 25 neighborhood offsets (dx, dy) visited by jsoracle, dy outer
from -2 to 2, dx inner from -2 to 2 (mxy = 2). -/
def neighOffsets : List (Int × Int) :=
  [(-2, -2), (-1, -2), (0, -2), (1, -2), (2, -2),
   (-2, -1), (-1, -1), (0, -1), (1, -1), (2, -1),
   (-2, 0), (-1, 0), (0, 0), (1, 0), (2, 0),
   (-2, 1), (-1, 1), (0, 1), (1, 1), (2, 1),
   (-2, 2), (-1, 2), (0, 2), (1, 2), (2, 2)]

/-- The doubly nested counting loop of jsoracle for one polygon: both
loops keep running only while ic >= 0; a hit of the wanted result
increments ic, a miss sets ic to -1 and thereby stops the remaining
iterations. -/
def icLoop (p : Polygon) (want : PIP) (px py : Int) : List (Int × Int) → Int → Int
  | [], ic => ic
  | o :: rest, ic =>
    if 0 ≤ ic then
      if point_in_polygonVH p (px + o.1) (py + o.2) = want then icLoop p want px py rest (ic + 1)
      else icLoop p want px py rest (-1)
    else ic

/-- One interior polygon accepts the query when all 25 neighborhood
points test interior, that is the final ic equals AREA = 25. -/
def intHit (p : Polygon) (ax ay : ℚ) : Bool :=
  let px := ⌊ax * (p.nenner : ℚ)⌋
  let py := ⌊ay * (p.nenner : ℚ)⌋
  decide (icLoop p PIP.interior px py neighOffsets 0 = 25)

/-- One exterior polygon accepts the query when all 25 neighborhood
points test exterior. -/
def extHit (p : Polygon) (ax ay : ℚ) : Bool :=
  let px := ⌊ax * (p.nenner : ℚ)⌋
  let py := ⌊ay * (p.nenner : ℚ)⌋
  decide (icLoop p PIP.exterior px py neighOffsets 0 = 25)

/-- First loop of jsoracle: scan the interior polygons, returning as
soon as one accepts the whole neighborhood. -/
def jsIntLoop (ax ay : ℚ) : List Polygon → Bool
  | [] => false
  | p :: rest => if intHit p ax ay then true else jsIntLoop ax ay rest

/-- Second loop of jsoracle carrying ergext: exterior polygons with an
empty vertex list are skipped by the pointcount > 0 guard; a non-empty
polygon that rejects the neighborhood returns PIP_UNKNOWN at once,
otherwise ergext becomes PIP_EXTERIOR. -/
def jsExtLoop (ax ay : ℚ) : List Polygon → PIP → PIP
  | [], ergext => ergext
  | p :: rest, ergext =>
    if 0 < p.points.length then
      if extHit p ax ay then jsExtLoop ax ay rest PIP.exterior
      else PIP.unknown
    else jsExtLoop ax ay rest ergext

/-- jsoracle of main.cpp over the loaded polygon sets intps (interior)
and extps (exterior): interior when some interior polygon accepts the
5x5 neighborhood, otherwise exterior exactly when the exterior loop
ends with ergext = PIP_EXTERIOR and at least one exterior polygon is
loaded, otherwise unknown.  The double arguments are modelled as exact
rationals, consumed only through floor(a * nenner) per polygon. -/
def jsoracle (intps extps : List Polygon) (ax ay : ℚ) : PIP :=
  if jsIntLoop ax ay intps then PIP.interior
  else
    if jsExtLoop ax ay extps PIP.unknown = PIP.exterior ∧ 0 < extps.length then PIP.exterior
    else PIP.unknown

/-- The specification-side reading of the neighborhood test: every
point of the 5x5 block around the scaled query classifies as r against
polygon p. -/
def neighAll (p : Polygon) (ax ay : ℚ) (r : PIP) : Prop :=
  ∀ dx dy : Int, -2 ≤ dx → dx ≤ 2 → -2 ≤ dy → dy ≤ 2 →
    point_in_polygonVH p (⌊ax * (p.nenner : ℚ)⌋ + dx) (⌊ay * (p.nenner : ℚ)⌋ + dy) = r

/-- A text line of a polygon file, as the character list delivered by
fgets with the trailing newline still present or already removed. -/
abbrev Line := List Char

/-- chomp of main.cpp: deletes the trailing run of characters with code
below 32 (newlines and other control characters). -/
def chomp (s : Line) : Line :=
  (s.reverse.dropWhile fun c => c.toNat < 32).reverse

/-- Decimal digit test, ASCII 48..57. -/
def isDigitC (c : Char) : Bool := 48 ≤ c.toNat && c.toNat ≤ 57

/-- Octal digit test, ASCII 48..55. -/
def isOctC (c : Char) : Bool := 48 ≤ c.toNat && c.toNat ≤ 55

/-- Hexadecimal digit test. -/
def isHexC (c : Char) : Bool :=
  isDigitC c || (65 ≤ c.toNat && c.toNat ≤ 70) || (97 ≤ c.toNat && c.toNat ≤ 102)

/-- Numeric value of a decimal or octal digit character. -/
def digitValC (c : Char) : Nat := c.toNat - 48

/-- Numeric value of a hexadecimal digit character. -/
def hexValC (c : Char) : Nat :=
  if c.toNat ≤ 57 then c.toNat - 48
  else if c.toNat ≤ 70 then c.toNat - 55
  else c.toNat - 87

/-- Whitespace test of the scanf conversions (space and ASCII 9..13). -/
def isSpaceC (c : Char) : Bool := c.toNat = 32 || (9 ≤ c.toNat && c.toNat ≤ 13)

/-- Greedy digit munch in the given base: consumes the maximal digit
prefix, accumulating the value. -/
def munchDigits (isD : Char → Bool) (dv : Char → Nat) (base : Nat) : Line → Nat → Nat × Line
  | [], acc => (acc, [])
  | c :: rest, acc =>
    if isD c then munchDigits isD dv base rest (base * acc + dv c) else (acc, c :: rest)

/-- Decimal natural: at least one digit required (the scanf matching
failure is none). -/
def parseNat (cs : Line) : Option (Nat × Line) :=
  match cs with
  | c :: _ => if isDigitC c then some (munchDigits isDigitC digitValC 10 cs 0) else none
  | [] => none

/-- Model of the sscanf conversion %I64d (decimal long long with
optional sign, leading whitespace skipped). -/
def parseLLD (cs0 : Line) : Option (Int × Line) :=
  let cs := cs0.dropWhile isSpaceC
  match cs with
  | '-' :: rest => (parseNat rest).map fun r => (-(r.1 : Int), r.2)
  | '+' :: rest => (parseNat rest).map fun r => ((r.1 : Int), r.2)
  | _ => (parseNat cs).map fun r => ((r.1 : Int), r.2)

/-- Unsigned part of the sscanf conversion %i with C base detection: a
leading 0x with a hex digit reads hexadecimal, a plain leading 0 reads
the maximal octal prefix (possibly just the 0), otherwise decimal. -/
def parseUnsignedI : Line → Option (Nat × Line)
  | '0' :: c :: rest =>
    if c = 'x' ∨ c = 'X' then
      match rest with
      | d :: rest2 =>
        if isHexC d then some (munchDigits isHexC hexValC 16 rest2 (hexValC d))
        else some (0, c :: d :: rest2)
      | [] => some (0, [c])
    else some (munchDigits isOctC digitValC 8 (c :: rest) 0)
  | ['0'] => some (0, [])
  | c :: rest =>
    if isDigitC c then some (munchDigits isDigitC digitValC 10 (c :: rest) 0) else none
  | [] => none

/-- Model of the sscanf conversion %i: leading whitespace, optional
sign, base-detected magnitude. -/
def parseI (cs0 : Line) : Option (Int × Line) :=
  let cs := cs0.dropWhile isSpaceC
  match cs with
  | '-' :: rest => (parseUnsignedI rest).map fun r => (-(r.1 : Int), r.2)
  | '+' :: rest => (parseUnsignedI rest).map fun r => ((r.1 : Int), r.2)
  | _ => (parseUnsignedI cs).map fun r => ((r.1 : Int), r.2)

/-- Model of sscanf(s, "%i,%i", ...) succeeding with both conversions:
an integer, a literal comma, an integer. -/
def parsePoint (cs : Line) : Option (Int × Int × Line) :=
  match parseI cs with
  | some (x, r1) =>
    match r1 with
    | ',' :: r2 => (parseI r2).map fun r => (x, r.1, r.2)
    | _ => none
  | none => none

/-- Decimal digit character for d < 10 (out-of-range arguments are not
used). -/
def digChar : Nat → Char
  | 0 => '0'
  | 1 => '1'
  | 2 => '2'
  | 3 => '3'
  | 4 => '4'
  | 5 => '5'
  | 6 => '6'
  | 7 => '7'
  | 8 => '8'
  | _ => '9'

/-- Decimal digit string of a natural number, most significant digit
first, as printf %i and %I64d produce it. -/
def natDigits (n : Nat) : List Char :=
  if n < 10 then [digChar n] else natDigits (n / 10) ++ [digChar (n % 10)]
termination_by n
decreasing_by
  exact Nat.div_lt_self (by omega) (by omega)

/-- printf rendering of an integer (%i and %I64d agree on the values at
hand). -/
def printInt (n : Int) : Line :=
  if n < 0 then '-' :: natDigits n.natAbs else natDigits n.natAbs

/-- Reader state of Polygon::load: the remaining lines of the file and
the fgets buffer.  A read past the end of the file leaves the buffer
unchanged, as fgets does on failure (its result is not checked in the
source). -/
structure Reader where
  lines : List Line
  buf : Line

/-- One fgets call. -/
def readLine (r : Reader) : Reader :=
  match r.lines with
  | [] => r
  | l :: rest => ⟨rest, l⟩

/-- The point-reading loop of Polygon::load: n lines, each parsed with
%i,%i (a matching failure is the fatal exit(99), modelled as none); the
first point initializes the bounding box exactly, later points expand
it with margin 8. -/
def loadPointsLoop :
    Nat → Reader → Bool → Int × Int × Int × Int →
    Option (List PolygonPoint × (Int × Int × Int × Int) × Reader)
  | 0, r, _, bb => some ([], bb, r)
  | n + 1, r, erster, bb =>
    let r2 := readLine r
    match parsePoint (chomp r2.buf) with
    | none => none
    | some (ax, ay, _) =>
      let bb2 := if erster then (ax, ax, ay, ay) else bbUpdate bb ax ay
      match loadPointsLoop n r2 false bb2 with
      | none => none
      | some (pts, bb3, r3) => some (⟨ax, ay⟩ :: pts, bb3, r3)

/-- Polygon::load of main.cpp on the lines of an already opened file
(the file-not-found early return -1 is outside the model).  A malformed
denominator line falls back to nenner = 1 << 25; the range line holds
four doubles that no verified operation consults, so it is read and
skipped (a malformed range line falls back to the RANGE0/RANGE1
defaults in the source, also without aborting); a malformed point-count
line or point line is the fatal exit(99), modelled as none.  A negative
point count would make new[] fail, the fatal allocation error, also
modelled as none. -/
def Polygon.load (lines : List Line) : Option Polygon :=
  let rd1 := readLine ⟨lines, []⟩
  let nen : Int :=
    match parseLLD (chomp rd1.buf) with
    | some (v, _) => v
    | none => 2 ^ 25
  let rd2 := readLine rd1
  let rd3 := readLine rd2
  match parseI (chomp rd3.buf) with
  | none => none
  | some (a, _) =>
    if a < 0 then none
    else
      match loadPointsLoop a.toNat rd3 true (0, 0, 0, 0) with
      | none => none
      | some (pts, bb, _) =>
        some { points := pts, nenner := nen, xmin := bb.1, xmax := bb.2.1,
               ymin := bb.2.2.1, ymax := bb.2.2.2,
               useprepare := false, yprepare := fun _ => 0 }

/-- Polygon::save of main.cpp: denominator line, range line (the
global integers RANGE0, RANGE1 printed with %i), point count, one x,y
line per vertex, and the closing dot line that load never reads. -/
def Polygon.save (r0 r1 : Int) (p : Polygon) : List Line :=
  [printInt p.nenner,
   printInt r0 ++ [','] ++ printInt r1 ++ [','] ++ printInt r0 ++ [','] ++ printInt r1,
   printInt (p.points.length : Int)]
  ++ p.points.map (fun q => printInt q.x ++ [','] ++ printInt q.y)
  ++ [['.']]

/-- Success predicate of the point-reading loop, used to characterize
which records Polygon::load accepts: every line consumed must parse as
an %i,%i vertex line.  The bounding-box arithmetic of the loop never
influences success, so it is absent here. -/
def pointsOK : Nat → Reader → Bool
  | 0, _ => true
  | n + 1, r =>
    let r2 := readLine r
    (parsePoint (chomp r2.buf)).isSome && pointsOK n r2

/-- Palette indices of main.cpp. -/
def COLORGRAY : Nat := 0

/-- COLORWHITE, the certain-exterior class. -/
def COLORWHITE : Nat := 1

/-- COLORBLACK, the certain-interior class. -/
def COLORBLACK : Nat := 2

/-- COLORBLUE, the boundary marker written by floodFillPattern. -/
def COLORBLUE : Nat := 5

/-- COLORYELLOW, the consumed-pixel marker of buildPolygon. -/
def COLORYELLOW : Nat := 6

/-- AKTIVCOL, the active-working class. -/
def AKTIVCOL : Nat := 16

/-- struct Charmap: the pixel grid.  The byte store is modelled as a
total function so that the unchecked index arithmetic of the source
(getPoint/setPoint never test bounds) has a definite meaning. -/
structure Charmap where
  xlen : Nat
  ylen : Nat
  pix : Int → Int → Nat

/-- Charmap::getPoint. -/
def Charmap.getPoint (c : Charmap) (x y : Int) : Nat := c.pix x y

/-- Charmap::setPoint. -/
def Charmap.setPoint (c : Charmap) (x y : Int) (v : Nat) : Charmap :=
  { c with pix := fun a b => if a = x ∧ b = y then v else c.pix a b }

/-- The gray-free test of the horizontal snippet connection: the four
columns x .. x+3 must hold no COLORGRAY directly above or below row y. -/
def grayFreeH (c : Charmap) (x y : Int) : Bool :=
  [0, 1, 2, 3].all fun dx : Int =>
    !(c.getPoint (x + dx) (y - 1) == COLORGRAY) && !(c.getPoint (x + dx) (y + 1) == COLORGRAY)

/-- The gray-free test of the vertical snippet connection: the four
rows y .. y+3 must hold no COLORGRAY directly left or right of column
x. -/
def grayFreeV (c : Charmap) (x y : Int) : Bool :=
  [0, 1, 2, 3].all fun dy : Int =>
    !(c.getPoint (x - 1) (y + dy) == COLORGRAY) && !(c.getPoint (x + 1) (y + dy) == COLORGRAY)

/-- The core pattern of the horizontal connection at (x, y): two
targetClass pixels at x and x+1 flanked by AKTIVCOL at x-1 and x+2. -/
def horizCore (relf : Nat) (c : Charmap) (x y : Int) : Bool :=
  c.getPoint (x + 1) y == relf && c.getPoint (x - 1) y == AKTIVCOL &&
  c.getPoint (x + 2) y == AKTIVCOL

/-- The core pattern of the vertical connection at (x, y): two
targetClass pixels at y and y+1 flanked by AKTIVCOL at y+2 and y-1. -/
def vertCore (relf : Nat) (c : Charmap) (x y : Int) : Bool :=
  c.getPoint x (y + 1) == relf && c.getPoint x (y + 2) == AKTIVCOL &&
  c.getPoint x (y - 1) == AKTIVCOL

/-- One cell of the snippet-connection sweep of floodFillPattern: on a
targetClass pixel, try the horizontal two-pixel bridge, else the
vertical one; a bridge is built only when the matching gray-free test
passes, setting both gap pixels to AKTIVCOL and raising changed. -/
def fusionCell (relf : Nat) (x y : Int) (st : Charmap × Bool) : Charmap × Bool :=
  let c := st.1
  if c.getPoint x y ≠ relf then st
  else if horizCore relf c x y then
    if grayFreeH c x y then (((c.setPoint x y AKTIVCOL).setPoint (x + 1) y AKTIVCOL), true)
    else st
  else if vertCore relf c x y then
    if grayFreeV c x y then (((c.setPoint x y AKTIVCOL).setPoint x (y + 1) AKTIVCOL), true)
    else st
  else st

/-- The cell order of one sweep: y from 1 while y < ylen - 2, x from 1
while x < xlen - 2. -/
def fusionCells (c : Charmap) : List (Int × Int) :=
  (List.range' 1 (c.ylen - 3)).flatMap fun y =>
    (List.range' 1 (c.xlen - 3)).map fun x => (Int.ofNat x, Int.ofNat y)

/-- One full sweep of the while (changed) loop body. -/
def fusionPass (relf : Nat) (c : Charmap) : Charmap × Bool :=
  (fusionCells c).foldl (fun st q => fusionCell relf q.1 q.2 st) (c, false)

/-- The while (changed) loop of floodFillPattern: sweeps repeat until a
sweep reports no change.  The Bool result records that the fixed point
was reached within the given fuel. -/
def fusionLoop (relf : Nat) : Nat → Charmap → Charmap × Bool
  | 0, c => (c, false)
  | fuel + 1, c =>
    match fusionPass relf c with
    | (c2, true) => fusionLoop relf fuel c2
    | (c2, false) => (c2, true)

/-- Number of grid pixels of color f, counted over the allocated
rectangle [0, xlen) x [0, ylen). -/
def colorCount (c : Charmap) (f : Nat) : Nat :=
  ((Finset.Icc (0 : Int) ((c.xlen : Int) - 1)) ×ˢ (Finset.Icc (0 : Int) ((c.ylen : Int) - 1))).filter
    (fun q => c.getPoint q.1 q.2 = f) |>.card

/-- The neighbour search of the boundary walk in buildPolygon, in the
source order +x, -x, -y, +y, for the next unused COLORBLUE pixel. -/
def nextBlue (c : Charmap) (x y : Int) : Option (Int × Int) :=
  if c.getPoint (x + 1) y = COLORBLUE then some (x + 1, y)
  else if c.getPoint (x - 1) y = COLORBLUE then some (x - 1, y)
  else if c.getPoint x (y - 1) = COLORBLUE then some (x, y - 1)
  else if c.getPoint x (y + 1) = COLORBLUE then some (x, y + 1)
  else none

/-- Outcome of the boundary walk: closure at the start pixel, the fatal
not-closable error, or fuel exhaustion (never reached with fuel above
the COLORBLUE pixel count). -/
inductive WalkRes where
  | closed (p : Polygon) (c : Charmap)
  | notClosable
  | fuelout

/-- Whether a walk result is the fuel-exhaustion artifact. -/
def WalkRes.isFuelout : WalkRes → Bool
  | .fuelout => true
  | _ => false

/-- The POLYGONADD macro of buildPolygon: a pixel coordinate is mapped
to the plane and scaled by the denominator, with floor. -/
def polygonAddPoint (skala : ℚ) (r0 nen : Int) (px py : Int) : PolygonPoint :=
  ⟨⌊((px : ℚ) * skala + (r0 : ℚ)) * (nen : ℚ)⌋, ⌊((py : ℚ) * skala + (r0 : ℚ)) * (nen : ℚ)⌋⟩

/-- The inner while (1) walk of buildPolygon: stop when the current
pixel is back at the start; otherwise move to the next COLORBLUE
4-neighbour, mark it COLORYELLOW (consumed), append it to the polygon,
and continue; with no such neighbour the walk is not closable (the
fatal exit(99) of the source). -/
def walkLoop (skala : ℚ) (r0 nen startx starty : Int) :
    Nat → Charmap → Int → Int → Polygon → WalkRes
  | 0, _, _, _, _ => .fuelout
  | fuel + 1, c, aktx, akty, p =>
    if aktx = startx ∧ akty = starty then .closed p c
    else
      match nextBlue c aktx akty with
      | none => .notClosable
      | some (nx, ny) =>
        let q := polygonAddPoint skala r0 nen nx ny
        walkLoop skala r0 nen startx starty fuel (c.setPoint nx ny COLORYELLOW) nx ny
          (p.add q.x q.y)

/-- Closed five-vertex axis-aligned square, traversed through the
upper-left corner first: (x0,y0), (x0,y0+s), (x0+s,y0+s), (x0+s,y0),
back to (x0,y0). -/
def squareVertsA (x0 y0 s : Int) : List PolygonPoint :=
  [⟨x0, y0⟩, ⟨x0, y0 + s⟩, ⟨x0 + s, y0 + s⟩, ⟨x0 + s, y0⟩, ⟨x0, y0⟩]

/-- The same square traversed in the opposite orientation:
(x0,y0), (x0+s,y0), (x0+s,y0+s), (x0,y0+s), back to (x0,y0). -/
def squareVertsB (x0 y0 s : Int) : List PolygonPoint :=
  [⟨x0, y0⟩, ⟨x0 + s, y0⟩, ⟨x0 + s, y0 + s⟩, ⟨x0, y0 + s⟩, ⟨x0, y0⟩]

/-- A polygon in the state Polygon::load leaves it in: vertex list,
denominator, the load-computed bounding box, useprepare cleared. -/
def mkLoadedPolygon (pts : List PolygonPoint) (nen : Int) : Polygon :=
  { points := pts, nenner := nen,
    xmin := (loadBbox pts).1, xmax := (loadBbox pts).2.1,
    ymin := (loadBbox pts).2.2.1, ymax := (loadBbox pts).2.2.2,
    useprepare := false, yprepare := fun _ => 0 }

/-- The promotion condition of one fusionCell, read off the canvas it
is evaluated on: a targetClass pixel whose horizontal bridge fires, or
whose horizontal core fails while the vertical bridge fires (the
else-if order of the source). -/
def fusionTrigger (relf : Nat) (c : Charmap) (x y : Int) : Bool :=
  c.getPoint x y == relf &&
  ((horizCore relf c x y && grayFreeH c x y) ||
   (!(horizCore relf c x y) && vertCore relf c x y && grayFreeV c x y))

/-- No COLORBLUE pixel outside the allocated grid rectangle; satisfied
by every canvas floodFillPattern produces, since it writes COLORBLUE
only at interior grid positions. -/
def noBlueOutside (c : Charmap) : Prop :=
  ∀ x y : Int,
    ¬(0 ≤ x ∧ x < (c.xlen : Int) ∧ 0 ≤ y ∧ y < (c.ylen : Int)) →
    c.getPoint x y ≠ COLORBLUE

/-- The polygon value freshly constructed by buildPolygon before any
vertex is added (NENNER = 1 << 25). -/
def pEmpty : Polygon :=
  { points := [], nenner := 2 ^ 25, xmin := 0, xmax := 0, ymin := 0, ymax := 0,
    useprepare := false, yprepare := fun _ => 0 }

/-- A traced square boundary whose walk happened to start in the middle
of the left vertical run: the seam (last two and first two vertices) is
x-colinear, the very situation trimColinearStart exists to collapse. -/
def exC5pts : List PolygonPoint :=
  [⟨0, 5⟩, ⟨0, 10⟩, ⟨10, 10⟩, ⟨10, 0⟩, ⟨0, 0⟩, ⟨0, 5⟩]

/-- The polygon of exC5pts as the tracer holds it right before
trimColinearStart. -/
def exC5poly : Polygon := mkLoadedPolygon exC5pts (2 ^ 25)

/-- A traced rectangle with x-colinear seam chosen so that the stray
store points[1].x = points[pointcount-1].y of trimColinearStart turns
vertex 1 into a duplicate of vertex 2: vertices
(0,5), (0,9), (7,9), (7,7), (0,7), (0,5). -/
def exC4pts : List PolygonPoint :=
  [⟨0, 5⟩, ⟨0, 9⟩, ⟨7, 9⟩, ⟨7, 7⟩, ⟨0, 7⟩, ⟨0, 5⟩]

/-- The polygon of exC4pts before trimColinearStart. -/
def exC4poly : Polygon := mkLoadedPolygon exC4pts (2 ^ 25)

/-- A polygon holding a single diagonal edge (0,0)-(5,5), bounding box
widened by hand so that queries near the origin take the edge walk; on
it the walk of point_in_polygonVH is the fatal diagonal error, while a
jump table prepared for a far-away row skips the edge entirely. -/
def diagPoly : Polygon :=
  { points := [⟨0, 0⟩, ⟨5, 5⟩], nenner := 2 ^ 25,
    xmin := -100, xmax := 100, ymin := -100, ymax := 100,
    useprepare := false, yprepare := fun _ => 0 }

/-- A persistence record whose denominator line "z" fails the %I64d
conversion while the remaining lines are well-formed. -/
def badDenomLines : List Line := [['z'], ['2'], ['1'], ['3', ',', '4']]

/-- A persistence record whose point-count line "q" fails the %i
conversion. -/
def badCountLines : List Line := [['1'], ['2'], ['q'], ['3', ',', '4']]

/-- An 8x8 canvas holding two AKTIVCOL pixels at (1,3) and (3,3)
separated by the single COLORBLACK pixel (2,3), no COLORGRAY anywhere:
the one-pixel-gap configuration of claim C3. -/
def oneGapCanvas : Charmap :=
  { xlen := 8, ylen := 8,
    pix := fun x y =>
      if y = 3 ∧ (x = 1 ∨ x = 3) then AKTIVCOL
      else if x = 2 ∧ y = 3 then COLORBLACK
      else COLORWHITE }

/-- An 8x8 canvas holding AKTIVCOL at (1,3) and (4,3) separated by the
two COLORBLACK pixels (2,3) and (3,3), no COLORGRAY anywhere: the
two-pixel-gap configuration that the fusion sweep does promote. -/
def twoGapCanvas : Charmap :=
  { xlen := 8, ylen := 8,
    pix := fun x y =>
      if y = 3 ∧ (x = 1 ∨ x = 4) then AKTIVCOL
      else if (x = 2 ∨ x = 3) ∧ y = 3 then COLORBLACK
      else COLORWHITE }

/-- An all-exterior-color canvas (used as a degenerate walk/fusion
input in the witnesses). -/
def whiteCanvas : Charmap := { xlen := 6, ylen := 6, pix := fun _ _ => COLORWHITE }

/-- A 100x100 interior square polygon at denominator 1, as loaded. -/
def w1square : Polygon := mkLoadedPolygon (squareVertsA 0 0 100) 1

/-- The same square at denominator 1 used as an exterior polygon in
witnesses. -/
def w1squareB : Polygon := mkLoadedPolygon (squareVertsB 0 0 100) 1

-- ## Theorems

/-- Claim C4: after trimColinearStart, every polygon handed to the
caller is cyclically colinear-free.  The code contradicts this (and the
comment of trimColinearStart itself): on the traced rectangle exC4pts,
whose seam is x-colinear, the loop body executes the stray store
points[1].x = points[pointcount-1].y, leaving a vertex list that fails
the code's own Polygon::isColinearFree check (three consecutive
vertices share x = 7), while the non-seam triples of the input were
colinear-free as tracing guarantees. -/
theorem trimColinearStart_violates_colinear_freedom :
    (exC4poly.trimColinearStart).isColinearFree = false ∧
    (exC4poly.trimColinearStart).points =
      [⟨0, 5⟩, ⟨7, 9⟩, ⟨7, 9⟩, ⟨7, 7⟩, ⟨0, 7⟩] ∧
    ((List.range' 2 4).all fun i =>
      !(colinearTriple (exC4pts.getD (i - 2) pp0) (exC4pts.getD (i - 1) pp0)
        (exC4pts.getD i pp0))) = true ∧
    exC4pts.headD pp0 = exC4pts.getLastD pp0 := by
  refine ⟨by decide, by decide, by decide, by decide⟩

/-- Claim C5: after seam trimming the first vertex equals the last.
The code contradicts this: on the closed traced square exC5pts (walk
started mid-run, so the seam is x-colinear and the trim loop fires),
trimColinearStart removes the last vertex and only rewrites the x
coordinate of vertex 0, so the result starts at (0,5) but ends at
(0,0).  The input itself was closed, as the walk of buildPolygon
guarantees. -/
theorem trimColinearStart_breaks_closure :
    exC5poly.points.headD pp0 = exC5poly.points.getLastD pp0 ∧
    (exC5poly.trimColinearStart).points.headD pp0 = ⟨0, 5⟩ ∧
    (exC5poly.trimColinearStart).points.getLastD pp0 = ⟨0, 0⟩ ∧
    (exC5poly.trimColinearStart).points.headD pp0 ≠
      (exC5poly.trimColinearStart).points.getLastD pp0 := by
  refine ⟨by decide, by decide, by decide, by decide⟩

/-- Claim C3 counterexample: on oneGapCanvas two active-working pixels
(1,3) and (3,3) are separated by exactly ONE targetClass
(COLORBLACK) pixel (2,3) along row 3, with no COLORGRAY anywhere near
the gap; the fusion loop nevertheless reaches its fixed point with the
gap pixel still COLORBLACK, because the sweep of floodFillPattern only
matches gaps of exactly two pixels. -/
theorem fusion_one_pixel_gap_not_promoted :
    oneGapCanvas.getPoint 1 3 = AKTIVCOL ∧
    oneGapCanvas.getPoint 3 3 = AKTIVCOL ∧
    oneGapCanvas.getPoint 2 3 = COLORBLACK ∧
    grayFreeH oneGapCanvas 1 3 = true ∧
    (fusionLoop COLORBLACK 4 oneGapCanvas).2 = true ∧
    (fusionLoop COLORBLACK 4 oneGapCanvas).1.getPoint 2 3 = COLORBLACK := by
  refine ⟨by decide, by decide, by decide, by decide, by decide, by decide⟩

/-- Claim C6 counterexample: on the polygon diagPoly, whose single edge
is diagonal, the query (1, 10) lies inside the bounding box; without
the jump table the walk reaches the diagonal edge, the fatal
implementation error (exit(99), modelled as PIP.error), while after
prepareY 10 the edge lies outside the y band [8, 12] and is skipped,
giving exterior — a different outcome for a query row within the
buffer of the prepared row (|10 - 10| <= 2). -/
theorem prepareY_changes_result_on_diagonal :
    point_in_polygonVH diagPoly.unPrepareY 1 10 = PIP.error ∧
    point_in_polygonVH (diagPoly.prepareY 10) 1 10 = PIP.exterior ∧
    point_in_polygonVH (diagPoly.prepareY 10) 1 10 ≠
      point_in_polygonVH diagPoly.unPrepareY 1 10 := by
  refine ⟨by decide, by decide, by decide⟩

/-- Claim C8 counterexample: the record badDenomLines has a denominator
line "z" on which the %I64d conversion fails, yet Polygon::load does
not abort: it substitutes the default denominator 1 << 25 = 33554432
and returns the successfully loaded polygon with vertex (3,4). -/
theorem load_malformed_denominator_not_fatal :
    parseLLD (chomp ['z']) = none ∧
    (Polygon.load badDenomLines).isSome = true ∧
    (Polygon.load badDenomLines).map Polygon.nenner = some 33554432 ∧
    (Polygon.load badDenomLines).map Polygon.points = some [⟨3, 4⟩] := by
  refine ⟨by decide, by decide, by decide, by decide⟩

/-- The increment chain of the unprepared walk visits exactly the
indices i+1 .. pointcount-1. -/
theorem chainOf_succ_eq_range (pc : Nat) :
    ∀ fuel i, pc - i < fuel →
    chainOf (fun k => k + 1) pc fuel i = List.range' (i + 1) (pc - 1 - i) := by
  intro fuel
  induction fuel with
  | zero => intro i h; omega
  | succ f ih =>
    intro i h
    rw [chainOf]
    split
    · have hj : ¬ pc ≤ i + 1 := by omega
      simp only [hj, if_false]
      rw [ih (i + 1) (by omega)]
      have hc : pc - 1 - i = (pc - 1 - (i + 1)) + 1 := by omega
      rw [hc, List.range'_succ]
    · have hc : pc - 1 - i = 0 := by omega
      simp [hc]

/-- walkIndices of an unprepared polygon is the full index range
1 .. pointcount-1. -/
theorem walkIndices_unprepared (p : Polygon) (h : p.useprepare = false) :
    walkIndices p = List.range' 1 (p.points.length - 1) := by
  simp only [walkIndices, h, Bool.false_eq_true, if_false]
  rw [chainOf_succ_eq_range _ _ 0 (by omega)]
  simp

/-- Positions different from every written position keep their value
through chainWrites. -/
theorem chainWrites_apply_ne (pc : Nat) :
    ∀ l (arr : Nat → Nat) s q, q ≠ s → q ∉ l →
    chainWrites pc arr s l q = arr q := by
  intro l
  induction l with
  | nil => intro arr s q hqs _; simp [chainWrites, updF, hqs]
  | cons r rest ih =>
    intro arr s q hqs hql
    rw [chainWrites]
    have hqr : q ≠ r := fun hq => hql (by rw [hq]; exact List.mem_cons_self r rest)
    rw [ih _ _ _ hqr (fun hq => hql (List.mem_cons_of_mem r hq))]
    simp [updF, hqs]

/-- Reading the chain written by chainWrites from its start position
recovers exactly the written index list, provided the positions
increase strictly, stay below pointcount, and the fuel covers the
length. -/
theorem chainOf_chainWrites (pc : Nat) :
    ∀ l fuel (arr : Nat → Nat) s,
    (s :: l).Pairwise (· < ·) → (∀ r ∈ l, r < pc) → l.length < fuel →
    chainOf (chainWrites pc arr s l) pc fuel s = l := by
  intro l
  induction l with
  | nil =>
    intro fuel arr s _ _ hf
    match fuel, hf with
    | f + 1, _ =>
      rw [chainOf]
      split
      · simp [chainWrites, updF]
      · rfl
  | cons r rest ih =>
    intro fuel arr s hpw hlt hf
    match fuel, hf with
    | f + 1, hf =>
      obtain ⟨hs, hpw2⟩ := List.pairwise_cons.mp hpw
      have hsr : s < r := hs r (List.mem_cons_self r rest)
      have hrpc : r < pc := hlt r (List.mem_cons_self r rest)
      have hcond : s < pc - 1 := by omega
      have hsnr : s ≠ r := by omega
      have hsrest : s ∉ rest := by
        intro hmem
        have := hs s (List.mem_cons_of_mem r hmem)
        omega
      have hval : chainWrites pc arr s (r :: rest) s = r := by
        rw [chainWrites, chainWrites_apply_ne pc rest _ r s hsnr hsrest]
        simp [updF]
      rw [chainOf]
      simp only [hcond, if_true, hval]
      have hnle : ¬ pc ≤ r := by omega
      simp only [hnle, if_false]
      congr 1
      rw [chainWrites]
      exact ih f (updF arr s r) r hpw2 (fun q hq => hlt q (List.mem_cons_of_mem r hq))
        (by simpa using hf)

/-- The prepareY loop followed by its closing store equals chainWrites
along the relevant indices of the remaining range, started from the
position encoded by li (0 for the initial li = -1). -/
theorem prepareYLoop_chainWrites (pts : List PolygonPoint) (ay : Int) :
    ∀ R (li : Option Nat) (arr : Nat → Nat),
    (match prepareYLoop pts ay R li arr with
     | (some l, a) => updF a l (pts.length + 16)
     | (none, a) => updF a 0 (pts.length + 16)) =
    chainWrites pts.length arr (match li with | some l => l | none => 0)
      (R.filter (relevantEdge pts ay)) := by
  intro R
  induction R with
  | nil => intro li arr; cases li <;> simp [prepareYLoop, chainWrites]
  | cons i rest ih =>
    intro li arr
    by_cases hrel : relevantEdge pts ay i = true
    · cases li with
      | some l =>
        simp only [prepareYLoop, hrel, if_true, List.filter_cons_of_pos hrel]
        rw [ih (some i) (updF arr l i), chainWrites]
      | none =>
        simp only [prepareYLoop, hrel, if_true, List.filter_cons_of_pos hrel]
        rw [ih (some i) (updF arr 0 i), chainWrites]
    · simp only [prepareYLoop, hrel, Bool.false_eq_true, if_false,
        List.filter_cons_of_neg (by simpa using hrel)]
      exact ih li arr

/-- prepareYArr is chainWrites from position 0 along the relevant
indices of 1 .. pointcount-1. -/
theorem prepareYArr_eq_chainWrites (pts : List PolygonPoint) (ay : Int) (arr0 : Nat → Nat) :
    prepareYArr pts ay arr0 =
    chainWrites pts.length arr0 0
      ((List.range' 1 (pts.length - 1)).filter (relevantEdge pts ay)) := by
  have h := prepareYLoop_chainWrites pts ay (List.range' 1 (pts.length - 1)) none arr0
  simpa [prepareYArr] using h

/-- After prepareY, the walk visits exactly the relevant indices of
1 .. pointcount-1, in order. -/
theorem walkIndices_prepareY (p : Polygon) (ay : Int) :
    walkIndices (p.prepareY ay) =
    (List.range' 1 (p.points.length - 1)).filter (relevantEdge p.points ay) := by
  have hpts : (p.prepareY ay).points = p.points := rfl
  have huse : (p.prepareY ay).useprepare = true := rfl
  set rel := (List.range' 1 (p.points.length - 1)).filter (relevantEdge p.points ay) with hrel
  have hpw : ((0 : Nat) :: rel).Pairwise (· < ·) := by
    rw [List.pairwise_cons]
    constructor
    · intro r hr
      have := List.mem_range'_1.mp (List.mem_of_mem_filter hr)
      omega
    · exact List.Pairwise.filter _ (List.pairwise_lt_range' 1 (p.points.length - 1))
  have hlt : ∀ r ∈ rel, r < p.points.length := by
    intro r hr
    have := List.mem_range'_1.mp (List.mem_of_mem_filter hr)
    omega
  have hlen : rel.length < p.points.length + 2 := by
    have h1 : rel.length ≤ (List.range' 1 (p.points.length - 1)).length :=
      List.length_filter_le _ _
    rw [List.length_range'] at h1
    omega
  simp only [walkIndices, huse, if_true, hpts]
  show chainOf (prepareYArr p.points ay p.yprepare) p.points.length (p.points.length + 2) 0 = rel
  rw [prepareYArr_eq_chainWrites, ← hrel]
  exact chainOf_chainWrites p.points.length rel (p.points.length + 2) p.yprepare 0 hpw hlt hlen

/-- Index form of isDiagonalFree: every edge of a diagonal-free vertex
list shares its x or its y coordinates. -/
theorem diagFreeAux_getD :
    ∀ pts : List PolygonPoint, diagFreeAux pts = true →
    ∀ i, 1 ≤ i → i < pts.length →
    (pts.getD (i - 1) pp0).x = (pts.getD i pp0).x ∨
    (pts.getD (i - 1) pp0).y = (pts.getD i pp0).y := by
  intro pts
  induction pts with
  | nil => intro _ i h1 hi; simp at hi
  | cons a tail ih =>
    intro h i h1 hi
    match tail with
    | [] => simp at hi; omega
    | b :: rest =>
      rw [diagFreeAux] at h
      simp only [Bool.and_eq_true, Bool.or_eq_true, beq_iff_eq] at h
      obtain ⟨hab, htail⟩ := h
      match i, h1 with
      | 1, _ =>
        simpa only [List.getD_cons_zero, List.getD_cons_succ] using hab
      | (n + 2), _ =>
        have hr := ih htail (n + 1) (by omega) (by simp at hi ⊢; omega)
        simpa using hr

/-- A walk edge outside the prepared y band is a no-op of the loop
body: for a query row within the BUFFER = 2 of the prepared row, an
irrelevant non-diagonal edge can neither return boundary nor toggle
the parity. -/
theorem pipEdge_skip (pts : List PolygonPoint) (ax ay ay0 : Int) (i : Nat) (e : Bool)
    (hd : (pts.getD (i - 1) pp0).x = (pts.getD i pp0).x ∨
      (pts.getD (i - 1) pp0).y = (pts.getD i pp0).y)
    (hrel : relevantEdge pts ay0 i = false)
    (h1 : ay0 - 2 ≤ ay) (h2 : ay ≤ ay0 + 2) :
    pipEdge pts ax ay i e = .go e := by
  simp only [relevantEdge, decide_eq_false_iff_not] at hrel
  push_neg at hrel
  simp only [pipEdge, minimumI, maximumI]
  split_ifs <;> first | rfl | (exfalso; omega)

/-- Dropping no-op indices from the visited list does not change the
outcome of the edge walk. -/
theorem pipRun_filter (pts : List PolygonPoint) (ax ay : Int) (q : Nat → Bool) :
    ∀ l : List Nat, (∀ i ∈ l, q i = false → ∀ e, pipEdge pts ax ay i e = .go e) →
    ∀ e, pipRun pts ax ay (l.filter q) e = pipRun pts ax ay l e := by
  intro l
  induction l with
  | nil => intro _ e; rfl
  | cons i rest ih =>
    intro hstep e
    have hrest : ∀ j ∈ rest, q j = false → ∀ e2, pipEdge pts ax ay j e2 = .go e2 :=
      fun j hj => hstep j (List.mem_cons_of_mem i hj)
    cases hq : q i with
    | true =>
      simp only [List.filter_cons_of_pos hq, pipRun]
      cases hedge : pipEdge pts ax ay i e with
      | ret r => simp [hedge]
      | go e2 => simp only [hedge]; exact ih hrest e2
    | false =>
      rw [List.filter_cons_of_neg (by simp [hq])]
      rw [ih hrest e]
      have hnoop := hstep i (List.mem_cons_self i rest) hq e
      simp [pipRun, hnoop]

/-- Claim C6 (amended to diagonal-free polygons, which every traced or
quality-controlled polygon is): for every diagonal-free polygon, every
prepared row ay0 and every query (ax, ay) with |ay - ay0| <= 2 (the
BUFFER of the jump table), point_in_polygonVH after prepareY ay0 gives
the same classification as after unPrepareY — the jump table is a pure
acceleration.  (On a polygon with a diagonal edge the two sides can
differ, see the counterexample theorem.) -/
theorem prepareY_no_effect_on_results (p : Polygon) (ay0 ax ay : Int)
    (hdf : p.isDiagonalFree = true) (h1 : ay0 - 2 ≤ ay) (h2 : ay ≤ ay0 + 2) :
    point_in_polygonVH (p.prepareY ay0) ax ay = point_in_polygonVH p.unPrepareY ax ay := by
  have hskip : ∀ i ∈ List.range' 1 (p.points.length - 1),
      relevantEdge p.points ay0 i = false → ∀ e,
      pipEdge p.points ax ay i e = .go e := by
    intro i hi hirr e
    have hmem := List.mem_range'_1.mp hi
    have hd := diagFreeAux_getD p.points hdf i (by omega) (by omega)
    exact pipEdge_skip p.points ax ay ay0 i e hd hirr h1 h2
  have hwiP := walkIndices_prepareY p ay0
  have hwiU := walkIndices_unprepared p.unPrepareY rfl
  have hptsU : (Polygon.unPrepareY p).points = p.points := rfl
  rw [hptsU] at hwiU
  have hfuelP : point_in_polygonVH.walkFuelOk (p.prepareY ay0) = true := by
    simp only [point_in_polygonVH.walkFuelOk, decide_eq_true_eq]
    rw [hwiP]
    have hlen : ((List.range' 1 (p.points.length - 1)).filter
        (relevantEdge p.points ay0)).length ≤ (List.range' 1 (p.points.length - 1)).length :=
      List.length_filter_le _ _
    rw [List.length_range'] at hlen
    show _ < (p.prepareY ay0).points.length + 2
    have hpts : (p.prepareY ay0).points = p.points := rfl
    rw [hpts]
    omega
  have hfuelU : point_in_polygonVH.walkFuelOk p.unPrepareY = true := by
    simp only [point_in_polygonVH.walkFuelOk, decide_eq_true_eq]
    rw [hwiU, List.length_range', hptsU]
    omega
  show point_in_polygonVH (p.prepareY ay0) ax ay = point_in_polygonVH p.unPrepareY ax ay
  rw [point_in_polygonVH, point_in_polygonVH]
  have hbb : ((p.prepareY ay0).xmin, (p.prepareY ay0).xmax, (p.prepareY ay0).ymin,
      (p.prepareY ay0).ymax) = (p.unPrepareY.xmin, p.unPrepareY.xmax, p.unPrepareY.ymin,
      p.unPrepareY.ymax) := rfl
  have hbb1 : (p.prepareY ay0).xmin = p.unPrepareY.xmin := rfl
  have hbb2 : (p.prepareY ay0).xmax = p.unPrepareY.xmax := rfl
  have hbb3 : (p.prepareY ay0).ymin = p.unPrepareY.ymin := rfl
  have hbb4 : (p.prepareY ay0).ymax = p.unPrepareY.ymax := rfl
  rw [hbb1, hbb2, hbb3, hbb4, hfuelP, hfuelU]
  split
  · rfl
  · simp only [if_true]
    have hptsP : (p.prepareY ay0).points = p.points := rfl
    rw [hptsP, hptsU, hwiP, hwiU]
    exact pipRun_filter p.points ax ay (relevantEdge p.points ay0) _ hskip true

/-- A negative counter stops the neighborhood loops at once. -/
theorem icLoop_neg (p : Polygon) (want : PIP) (px py : Int) :
    ∀ l (ic : Int), ic < 0 → icLoop p want px py l ic = ic := by
  intro l
  induction l with
  | nil => intro ic _; rfl
  | cons o rest ih => intro ic h; rw [icLoop, if_neg (by omega)]

/-- When every offset classifies as wanted, the counter advances by the
number of offsets. -/
theorem icLoop_all (p : Polygon) (want : PIP) (px py : Int) :
    ∀ l (ic : Int), 0 ≤ ic →
    (∀ o ∈ l, point_in_polygonVH p (px + o.1) (py + o.2) = want) →
    icLoop p want px py l ic = ic + l.length := by
  intro l
  induction l with
  | nil => intro ic _ _; simp [icLoop]
  | cons o rest ih =>
    intro ic hic hall
    rw [icLoop, if_pos hic, if_pos (hall o (List.mem_cons_self o rest))]
    rw [ih (ic + 1) (by omega) (fun q hq => hall q (List.mem_cons_of_mem o hq))]
    simp only [List.length_cons]
    push_cast
    omega

/-- One mismatch drives the counter to -1 for good. -/
theorem icLoop_fail (p : Polygon) (want : PIP) (px py : Int) :
    ∀ l (ic : Int), 0 ≤ ic →
    (∃ o ∈ l, point_in_polygonVH p (px + o.1) (py + o.2) ≠ want) →
    icLoop p want px py l ic = -1 := by
  intro l
  induction l with
  | nil => intro ic _ h; simp at h
  | cons o rest ih =>
    intro ic hic hex
    rw [icLoop, if_pos hic]
    by_cases hw : point_in_polygonVH p (px + o.1) (py + o.2) = want
    · rw [if_pos hw]
      obtain ⟨q, hq, hne⟩ := hex
      rcases List.mem_cons.mp hq with rfl | hq2
      · exact absurd hw hne
      · exact ih (ic + 1) (by omega) ⟨q, hq2, hne⟩
    · rw [if_neg hw]
      exact icLoop_neg p want px py rest (-1) (by omega)

/-- The bounded 5x5 block is exactly the offset list of jsoracle. -/
theorem mem_neighOffsets (dx dy : Int) (h1 : -2 ≤ dx) (h2 : dx ≤ 2)
    (h3 : -2 ≤ dy) (h4 : dy ≤ 2) : (dx, dy) ∈ neighOffsets := by
  interval_cases dx <;> interval_cases dy <;> decide

/-- Every listed offset lies in the 5x5 block. -/
theorem neighOffsets_bounds :
    ∀ o ∈ neighOffsets, -2 ≤ o.1 ∧ o.1 ≤ 2 ∧ -2 ≤ o.2 ∧ o.2 ≤ 2 := by decide

/-- The counting loop reaches AREA = 25 exactly when all 25 offsets
classify as wanted. -/
theorem icLoop25_iff (p : Polygon) (want : PIP) (px py : Int) :
    icLoop p want px py neighOffsets 0 = 25 ↔
    ∀ o ∈ neighOffsets, point_in_polygonVH p (px + o.1) (py + o.2) = want := by
  constructor
  · intro h o ho
    by_contra hne
    have hfail := icLoop_fail p want px py neighOffsets 0 (by omega) ⟨o, ho, hne⟩
    omega
  · intro hall
    rw [icLoop_all p want px py neighOffsets 0 (by omega) hall]
    rfl

/-- intHit is the all-interior neighborhood condition. -/
theorem intHit_iff (p : Polygon) (ax ay : ℚ) :
    intHit p ax ay = true ↔ neighAll p ax ay PIP.interior := by
  rw [intHit]
  simp only [decide_eq_true_eq]
  rw [icLoop25_iff]
  constructor
  · intro h dx dy h1 h2 h3 h4
    exact h (dx, dy) (mem_neighOffsets dx dy h1 h2 h3 h4)
  · intro h o ho
    obtain ⟨b1, b2, b3, b4⟩ := neighOffsets_bounds o ho
    exact h o.1 o.2 b1 b2 b3 b4

/-- extHit is the all-exterior neighborhood condition. -/
theorem extHit_iff (p : Polygon) (ax ay : ℚ) :
    extHit p ax ay = true ↔ neighAll p ax ay PIP.exterior := by
  rw [extHit]
  simp only [decide_eq_true_eq]
  rw [icLoop25_iff]
  constructor
  · intro h dx dy h1 h2 h3 h4
    exact h (dx, dy) (mem_neighOffsets dx dy h1 h2 h3 h4)
  · intro h o ho
    obtain ⟨b1, b2, b3, b4⟩ := neighOffsets_bounds o ho
    exact h o.1 o.2 b1 b2 b3 b4

/-- The interior loop of jsoracle succeeds exactly when some interior
polygon accepts the whole neighborhood. -/
theorem jsIntLoop_iff (ax ay : ℚ) :
    ∀ l, jsIntLoop ax ay l = true ↔ ∃ p ∈ l, intHit p ax ay = true := by
  intro l
  induction l with
  | nil => simp [jsIntLoop]
  | cons p rest ih =>
    rw [jsIntLoop]
    by_cases hp : intHit p ax ay = true
    · simp [hp]
    · simp only [hp, Bool.false_eq_true, if_false, ih]
      constructor
      · intro ⟨q, hq, hh⟩; exact ⟨q, List.mem_cons_of_mem p hq, hh⟩
      · intro ⟨q, hq, hh⟩
        rcases List.mem_cons.mp hq with rfl | hq2
        · exact absurd hh hp
        · exact ⟨q, hq2, hh⟩

/-- A polygon with no vertices classifies every query as exterior: the
bounding-box fast path or the empty edge walk with even parity. -/
theorem pip_empty (p : Polygon) (h : p.points = []) (ax ay : Int) :
    point_in_polygonVH p ax ay = PIP.exterior := by
  have hwi : walkIndices p = [] := by
    rw [walkIndices, h]
    split <;> simp [chainOf]
  have hfuel : point_in_polygonVH.walkFuelOk p = true := by
    simp [point_in_polygonVH.walkFuelOk, hwi]
  rw [point_in_polygonVH, hfuel, hwi]
  split
  · rfl
  · simp [pipRun]

/-- An empty polygon satisfies the all-exterior neighborhood
condition vacuously. -/
theorem neighAll_empty (p : Polygon) (h : p.points = []) (ax ay : ℚ) :
    neighAll p ax ay PIP.exterior :=
  fun _ _ _ _ _ _ => pip_empty p h _ _

/-- When all exterior polygons are empty, the exterior loop leaves
ergext unchanged. -/
theorem jsExtLoop_all_empty (ax ay : ℚ) :
    ∀ l, (∀ p ∈ l, p.points = []) → ∀ e, jsExtLoop ax ay l e = e := by
  intro l
  induction l with
  | nil => intro _ e; rfl
  | cons p rest ih =>
    intro hall e
    rw [jsExtLoop]
    have hp : p.points = [] := hall p (List.mem_cons_self p rest)
    rw [if_neg (by simp [hp])]
    exact ih (fun q hq => hall q (List.mem_cons_of_mem p hq)) e

/-- When every non-empty exterior polygon accepts and one exists, the
exterior loop ends at PIP_EXTERIOR. -/
theorem jsExtLoop_all_pass (ax ay : ℚ) :
    ∀ l, (∀ p ∈ l, 0 < p.points.length → extHit p ax ay = true) →
    (∃ p ∈ l, 0 < p.points.length) → ∀ e, jsExtLoop ax ay l e = PIP.exterior := by
  intro l
  induction l with
  | nil => intro _ hex; simp at hex
  | cons p rest ih =>
    intro hall hex e
    rw [jsExtLoop]
    by_cases hn : 0 < p.points.length
    · rw [if_pos hn, if_pos (hall p (List.mem_cons_self p rest) hn)]
      by_cases hrest : ∃ q ∈ rest, 0 < q.points.length
      · exact ih (fun q hq => hall q (List.mem_cons_of_mem p hq)) hrest PIP.exterior
      · have hempty : ∀ q ∈ rest, q.points = [] := by
          intro q hq
          rcases List.eq_nil_or_concat q.points with hnil | ⟨_, _, _⟩
          · exact hnil
          · exact List.eq_nil_of_length_eq_zero (by
              by_contra hlen
              exact hrest ⟨q, hq, by omega⟩)
        exact jsExtLoop_all_empty ax ay rest hempty PIP.exterior
    · rw [if_neg hn]
      obtain ⟨q, hq, hql⟩ := hex
      rcases List.mem_cons.mp hq with rfl | hq2
      · exact absurd hql hn
      · exact ih (fun r hr => hall r (List.mem_cons_of_mem p hr)) ⟨q, hq2, hql⟩ e

/-- A rejecting non-empty exterior polygon forces PIP_UNKNOWN. -/
theorem jsExtLoop_fail (ax ay : ℚ) :
    ∀ l, (∃ p ∈ l, 0 < p.points.length ∧ extHit p ax ay = false) →
    ∀ e, jsExtLoop ax ay l e = PIP.unknown := by
  intro l
  induction l with
  | nil => intro hex; simp at hex
  | cons p rest ih =>
    intro hex e
    rw [jsExtLoop]
    obtain ⟨q, hq, hql, hqh⟩ := hex
    by_cases hn : 0 < p.points.length
    · rw [if_pos hn]
      by_cases hh : extHit p ax ay = true
      · rw [if_pos hh]
        rcases List.mem_cons.mp hq with rfl | hq2
        · rw [hh] at hqh; exact absurd hqh (by simp)
        · exact ih ⟨q, hq2, hql, hqh⟩ PIP.exterior
      · rw [if_neg hh]
    · rw [if_neg hn]
      rcases List.mem_cons.mp hq with rfl | hq2
      · exact absurd hql hn
      · exact ih ⟨q, hq2, hql, hqh⟩ e

/-- PIP_EXTERIOR out of the exterior loop started at PIP_UNKNOWN
requires a non-empty exterior polygon. -/
theorem jsExtLoop_exterior_nonempty (ax ay : ℚ) :
    ∀ l, jsExtLoop ax ay l PIP.unknown = PIP.exterior →
    ∃ p ∈ l, 0 < p.points.length := by
  intro l
  induction l with
  | nil => intro h; simp [jsExtLoop] at h
  | cons p rest ih =>
    intro h
    rw [jsExtLoop] at h
    by_cases hn : 0 < p.points.length
    · exact ⟨p, List.mem_cons_self p rest, hn⟩
    · rw [if_neg hn] at h
      obtain ⟨q, hq, hql⟩ := ih h
      exact ⟨q, List.mem_cons_of_mem p hq, hql⟩

/-- Claim C1: jsoracle returns interior exactly when all 25 points of
the 5x5 neighborhood classify interior against some single interior
polygon; it returns exterior only when no interior polygon matches, at
least one exterior polygon exists and every exterior polygon (the
empty ones trivially, see the C10 theorem) classifies the whole
neighborhood exterior; when neither condition holds — in particular
when no polygons of the relevant kind exist — it returns
undetermined. -/
theorem jsoracle_aggregation (intps extps : List Polygon) (ax ay : ℚ) :
    (jsoracle intps extps ax ay = PIP.interior ↔
      ∃ p ∈ intps, neighAll p ax ay PIP.interior) ∧
    (jsoracle intps extps ax ay = PIP.exterior →
      (¬ ∃ p ∈ intps, neighAll p ax ay PIP.interior) ∧ extps ≠ [] ∧
      ∀ p ∈ extps, neighAll p ax ay PIP.exterior) ∧
    ((¬ ∃ p ∈ intps, neighAll p ax ay PIP.interior) ∧
      ¬(extps ≠ [] ∧ ∀ p ∈ extps, neighAll p ax ay PIP.exterior) →
      jsoracle intps extps ax ay = PIP.unknown) := by
  have hint : jsIntLoop ax ay intps = true ↔ ∃ p ∈ intps, neighAll p ax ay PIP.interior := by
    rw [jsIntLoop_iff]
    constructor
    · intro ⟨p, hp, hh⟩; exact ⟨p, hp, (intHit_iff p ax ay).mp hh⟩
    · intro ⟨p, hp, hh⟩; exact ⟨p, hp, (intHit_iff p ax ay).mpr hh⟩
  have hfail : (∃ p ∈ extps, ¬ neighAll p ax ay PIP.exterior) →
      jsExtLoop ax ay extps PIP.unknown = PIP.unknown := by
    intro ⟨p, hp, hne⟩
    have hnonempty : 0 < p.points.length := by
      by_contra hlen
      exact hne (neighAll_empty p (List.eq_nil_of_length_eq_zero (by omega)) ax ay)
    have hhit : extHit p ax ay = false := by
      by_contra hh
      exact hne ((extHit_iff p ax ay).mp (by revert hh; cases extHit p ax ay <;> simp))
    exact jsExtLoop_fail ax ay extps ⟨p, hp, hnonempty, hhit⟩ PIP.unknown
  refine ⟨?_, ?_, ?_⟩
  · constructor
    · intro h
      rw [jsoracle] at h
      by_cases hjs : jsIntLoop ax ay intps = true
      · exact hint.mp hjs
      · rw [if_neg (by simpa using hjs)] at h
        revert h
        split <;> intro h <;> simp at h
    · intro hex
      rw [jsoracle, if_pos (hint.mpr hex)]
  · intro h
    rw [jsoracle] at h
    by_cases hjs : jsIntLoop ax ay intps = true
    · rw [if_pos hjs] at h; simp at h
    · rw [if_neg (by simpa using hjs)] at h
      have hnin : ¬ ∃ p ∈ intps, neighAll p ax ay PIP.interior := fun hc => hjs (hint.mpr hc)
      refine ⟨hnin, ?_, ?_⟩
      · intro hnil
        rw [hnil] at h
        simp [jsExtLoop] at h
      · intro p hp
        by_contra hne
        rw [hfail ⟨p, hp, hne⟩] at h
        simp at h
  · intro ⟨hnin, hnall⟩
    have hjs : jsIntLoop ax ay intps = false := by
      cases hcase : jsIntLoop ax ay intps
      · rfl
      · exact absurd (hint.mp hcase) hnin
    rw [jsoracle, hjs]
    simp only [Bool.false_eq_true, if_false]
    by_cases hne : extps = []
    · rw [hne]
      simp [jsExtLoop]
    · have hexf : ∃ p ∈ extps, ¬ neighAll p ax ay PIP.exterior := by
        by_contra hallc
        push_neg at hallc
        exact hnall ⟨hne, hallc⟩
      rw [hfail hexf]
      simp

/-- Claim C10: jsoracle skips exterior polygons with an empty vertex
list entirely — prepending an empty polygon to the exterior set never
changes the oracle result — and when every exterior polygon is empty
(and no interior polygon matched) the result is undetermined even
though exterior polygons exist. -/
theorem jsoracle_empty_exterior_skipped :
    (∀ (intps extps : List Polygon) (e : Polygon) (ax ay : ℚ), e.points = [] →
      jsoracle intps (e :: extps) ax ay = jsoracle intps extps ax ay) ∧
    (∀ (intps extps : List Polygon) (ax ay : ℚ),
      jsIntLoop ax ay intps = false → (∀ p ∈ extps, p.points = []) → extps ≠ [] →
      jsoracle intps extps ax ay = PIP.unknown) := by
  constructor
  · intro intps extps e ax ay he
    rw [jsoracle, jsoracle]
    have hskip : jsExtLoop ax ay (e :: extps) PIP.unknown =
        jsExtLoop ax ay extps PIP.unknown := by
      rw [jsExtLoop, if_neg (by simp [he])]
    by_cases hjs : jsIntLoop ax ay intps = true
    · rw [if_pos hjs, if_pos hjs]
    · have hjs2 : jsIntLoop ax ay intps = false := by simpa using hjs
      simp only [hjs2, Bool.false_eq_true, if_false]
      rw [hskip]
      by_cases hx : jsExtLoop ax ay extps PIP.unknown = PIP.exterior
      · have hlen := jsExtLoop_exterior_nonempty ax ay extps hx
        have h1 : 0 < extps.length := by
          obtain ⟨q, hq, _⟩ := hlen
          exact List.length_pos.mpr (List.ne_nil_of_mem hq)
        rw [if_pos ⟨hx, by simp⟩, if_pos ⟨hx, h1⟩]
      · rw [if_neg (by intro hc; exact hx hc.1), if_neg (by intro hc; exact hx hc.1)]
  · intro intps extps ax ay hjs hall hne
    rw [jsoracle, hjs]
    simp only [Bool.false_eq_true, if_false]
    rw [jsExtLoop_all_empty ax ay extps hall PIP.unknown]
    simp

/-- Witness for the C1 theorem at a concrete input: with no polygons of
either kind loaded, the oracle answers undetermined. -/
theorem jsoracle_aggregation_witness :
    jsoracle [] [] 0 0 = PIP.unknown :=
  (jsoracle_aggregation [] [] 0 0).2.2 ⟨by simp, by simp⟩

/-- Witness for the amended C6 theorem at a concrete input: on the
loaded 10x10 square (diagonal-free), preparing row 3 and querying
(1, 2) inside the buffer gives the same verdict as the unprepared
oracle, namely interior. -/
theorem prepareY_no_effect_witness :
    (mkLoadedPolygon (squareVertsA 0 0 10) 1).isDiagonalFree = true ∧
    point_in_polygonVH ((mkLoadedPolygon (squareVertsA 0 0 10) 1).prepareY 3) 1 2 =
      point_in_polygonVH (mkLoadedPolygon (squareVertsA 0 0 10) 1).unPrepareY 1 2 ∧
    point_in_polygonVH (mkLoadedPolygon (squareVertsA 0 0 10) 1).unPrepareY 1 2 =
      PIP.interior :=
  ⟨by decide,
   prepareY_no_effect_on_results (mkLoadedPolygon (squareVertsA 0 0 10) 1) 3 1 2
     (by decide) (by decide) (by decide),
   by decide⟩

/-- Witness for the C10 theorem at a concrete input: prepending the
empty polygon changes nothing, and a purely empty exterior set answers
undetermined. -/
theorem jsoracle_empty_exterior_witness :
    jsoracle [] [pEmpty] 0 0 = jsoracle [] [] 0 0 ∧
    jsoracle [] [pEmpty] 0 0 = PIP.unknown :=
  ⟨jsoracle_empty_exterior_skipped.1 [] [] pEmpty 0 0 rfl,
   jsoracle_empty_exterior_skipped.2 [] [pEmpty] 0 0 rfl
     (by intro p hp; simp at hp; rw [hp]; rfl) (by simp)⟩

/-- Edge 1 of the A-orientation square: the left vertical edge;
boundary on it, parity toggle exactly for rays from strictly left of
it at strictly interior height (the vertex rule suppresses the toggle
at the corner heights). -/
theorem edgeA1 (x0 y0 s ax ay : Int) (hs : 1 ≤ s) (e : Bool) :
    pipEdge (squareVertsA x0 y0 s) ax ay 1 e =
      (if ax = x0 ∧ y0 ≤ ay ∧ ay ≤ y0 + s then .ret .boundary
       else if ax < x0 ∧ y0 < ay ∧ ay < y0 + s then .go (!e)
       else .go e) := by
  simp only [pipEdge, squareVertsA, List.getD_cons_zero, List.getD_cons_succ,
    List.length_cons, List.length_nil, minimumI, maximumI]
  norm_num
  split_ifs <;> first | rfl | (exfalso; omega)

/-- Edge 2 of the A square: the top horizontal edge; boundary on it,
never a toggle (the colinear-ray rule sees a touch, not a crossing). -/
theorem edgeA2 (x0 y0 s ax ay : Int) (hs : 1 ≤ s) (e : Bool) :
    pipEdge (squareVertsA x0 y0 s) ax ay 2 e =
      (if ay = y0 + s ∧ x0 ≤ ax ∧ ax ≤ x0 + s then .ret .boundary else .go e) := by
  simp only [pipEdge, squareVertsA, List.getD_cons_zero, List.getD_cons_succ,
    List.length_cons, List.length_nil, minimumI, maximumI]
  norm_num
  split_ifs <;> first | rfl | (exfalso; omega)

/-- Edge 3 of the A square: the right vertical edge. -/
theorem edgeA3 (x0 y0 s ax ay : Int) (hs : 1 ≤ s) (e : Bool) :
    pipEdge (squareVertsA x0 y0 s) ax ay 3 e =
      (if ax = x0 + s ∧ y0 ≤ ay ∧ ay ≤ y0 + s then .ret .boundary
       else if ax < x0 + s ∧ y0 < ay ∧ ay < y0 + s then .go (!e)
       else .go e) := by
  simp only [pipEdge, squareVertsA, List.getD_cons_zero, List.getD_cons_succ,
    List.length_cons, List.length_nil, minimumI, maximumI]
  norm_num
  split_ifs <;> first | rfl | (exfalso; omega)

/-- Edge 4 of the A square: the bottom horizontal edge. -/
theorem edgeA4 (x0 y0 s ax ay : Int) (hs : 1 ≤ s) (e : Bool) :
    pipEdge (squareVertsA x0 y0 s) ax ay 4 e =
      (if ay = y0 ∧ x0 ≤ ax ∧ ax ≤ x0 + s then .ret .boundary else .go e) := by
  simp only [pipEdge, squareVertsA, List.getD_cons_zero, List.getD_cons_succ,
    List.length_cons, List.length_nil, minimumI, maximumI]
  norm_num
  split_ifs <;> first | rfl | (exfalso; omega)

/-- The full walk over the A square realizes the even-odd
classification: boundary on the edges, interior strictly inside,
exterior elsewhere. -/
theorem pipRun_squareA (x0 y0 s ax ay : Int) (hs : 1 ≤ s) :
    pipRun (squareVertsA x0 y0 s) ax ay [1, 2, 3, 4] true =
      (if ((ax = x0 ∨ ax = x0 + s) ∧ y0 ≤ ay ∧ ay ≤ y0 + s) ∨
          ((ay = y0 ∨ ay = y0 + s) ∧ x0 ≤ ax ∧ ax ≤ x0 + s) then PIP.boundary
       else if x0 < ax ∧ ax < x0 + s ∧ y0 < ay ∧ ay < y0 + s then PIP.interior
       else PIP.exterior) := by
  simp only [pipRun, edgeA1 x0 y0 s ax ay hs, edgeA2 x0 y0 s ax ay hs,
    edgeA3 x0 y0 s ax ay hs, edgeA4 x0 y0 s ax ay hs]
  split_ifs <;> first | rfl | (exfalso; omega)

/-- Edge 1 of the B-orientation square: the bottom horizontal edge. -/
theorem edgeB1 (x0 y0 s ax ay : Int) (hs : 1 ≤ s) (e : Bool) :
    pipEdge (squareVertsB x0 y0 s) ax ay 1 e =
      (if ay = y0 ∧ x0 ≤ ax ∧ ax ≤ x0 + s then .ret .boundary else .go e) := by
  simp only [pipEdge, squareVertsB, List.getD_cons_zero, List.getD_cons_succ,
    List.length_cons, List.length_nil, minimumI, maximumI]
  norm_num
  split_ifs <;> first | rfl | (exfalso; omega)

/-- Edge 2 of the B square: the right vertical edge. -/
theorem edgeB2 (x0 y0 s ax ay : Int) (hs : 1 ≤ s) (e : Bool) :
    pipEdge (squareVertsB x0 y0 s) ax ay 2 e =
      (if ax = x0 + s ∧ y0 ≤ ay ∧ ay ≤ y0 + s then .ret .boundary
       else if ax < x0 + s ∧ y0 < ay ∧ ay < y0 + s then .go (!e)
       else .go e) := by
  simp only [pipEdge, squareVertsB, List.getD_cons_zero, List.getD_cons_succ,
    List.length_cons, List.length_nil, minimumI, maximumI]
  norm_num
  split_ifs <;> first | rfl | (exfalso; omega)

/-- Edge 3 of the B square: the top horizontal edge. -/
theorem edgeB3 (x0 y0 s ax ay : Int) (hs : 1 ≤ s) (e : Bool) :
    pipEdge (squareVertsB x0 y0 s) ax ay 3 e =
      (if ay = y0 + s ∧ x0 ≤ ax ∧ ax ≤ x0 + s then .ret .boundary else .go e) := by
  simp only [pipEdge, squareVertsB, List.getD_cons_zero, List.getD_cons_succ,
    List.length_cons, List.length_nil, minimumI, maximumI]
  norm_num
  split_ifs <;> first | rfl | (exfalso; omega)

/-- Edge 4 of the B square: the left vertical edge. -/
theorem edgeB4 (x0 y0 s ax ay : Int) (hs : 1 ≤ s) (e : Bool) :
    pipEdge (squareVertsB x0 y0 s) ax ay 4 e =
      (if ax = x0 ∧ y0 ≤ ay ∧ ay ≤ y0 + s then .ret .boundary
       else if ax < x0 ∧ y0 < ay ∧ ay < y0 + s then .go (!e)
       else .go e) := by
  simp only [pipEdge, squareVertsB, List.getD_cons_zero, List.getD_cons_succ,
    List.length_cons, List.length_nil, minimumI, maximumI]
  norm_num
  split_ifs <;> first | rfl | (exfalso; omega)

/-- The full walk over the B square realizes the same classification. -/
theorem pipRun_squareB (x0 y0 s ax ay : Int) (hs : 1 ≤ s) :
    pipRun (squareVertsB x0 y0 s) ax ay [1, 2, 3, 4] true =
      (if ((ax = x0 ∨ ax = x0 + s) ∧ y0 ≤ ay ∧ ay ≤ y0 + s) ∨
          ((ay = y0 ∨ ay = y0 + s) ∧ x0 ≤ ax ∧ ax ≤ x0 + s) then PIP.boundary
       else if x0 < ax ∧ ax < x0 + s ∧ y0 < ay ∧ ay < y0 + s then PIP.interior
       else PIP.exterior) := by
  simp only [pipRun, edgeB1 x0 y0 s ax ay hs, edgeB2 x0 y0 s ax ay hs,
    edgeB3 x0 y0 s ax ay hs, edgeB4 x0 y0 s ax ay hs]
  split_ifs <;> first | rfl | (exfalso; omega)

/-- One bounding-box expansion step never shrinks the box. -/
theorem bbUpdate_widens (bb : Int × Int × Int × Int) (ax ay : Int) :
    (bbUpdate bb ax ay).1 ≤ bb.1 ∧ bb.2.1 ≤ (bbUpdate bb ax ay).2.1 ∧
    (bbUpdate bb ax ay).2.2.1 ≤ bb.2.2.1 ∧ bb.2.2.2 ≤ (bbUpdate bb ax ay).2.2.2 := by
  simp only [bbUpdate]
  refine ⟨?_, ?_, ?_, ?_⟩ <;> (split_ifs <;> omega)

/-- One bounding-box expansion step covers its argument point. -/
theorem bbUpdate_covers (bb : Int × Int × Int × Int) (ax ay : Int) :
    (bbUpdate bb ax ay).1 ≤ ax ∧ ax ≤ (bbUpdate bb ax ay).2.1 ∧
    (bbUpdate bb ax ay).2.2.1 ≤ ay ∧ ay ≤ (bbUpdate bb ax ay).2.2.2 := by
  simp only [bbUpdate]
  refine ⟨?_, ?_, ?_, ?_⟩ <;> (split_ifs <;> omega)

/-- The load-computed bounding box of the A square contains the square
itself (margin 8 aside). -/
theorem loadBbox_squareA_covers (x0 y0 s : Int) :
    (loadBbox (squareVertsA x0 y0 s)).1 ≤ x0 ∧
    x0 + s ≤ (loadBbox (squareVertsA x0 y0 s)).2.1 ∧
    (loadBbox (squareVertsA x0 y0 s)).2.2.1 ≤ y0 ∧
    y0 + s ≤ (loadBbox (squareVertsA x0 y0 s)).2.2.2 := by
  simp only [loadBbox, squareVertsA, List.foldl_cons, List.foldl_nil]
  have h1 := bbUpdate_widens (x0, x0, y0, y0) x0 (y0 + s)
  have hc1 := bbUpdate_covers (x0, x0, y0, y0) x0 (y0 + s)
  have h2 := bbUpdate_widens (bbUpdate (x0, x0, y0, y0) x0 (y0 + s)) (x0 + s) (y0 + s)
  have hc2 := bbUpdate_covers (bbUpdate (x0, x0, y0, y0) x0 (y0 + s)) (x0 + s) (y0 + s)
  have h3 := bbUpdate_widens (bbUpdate (bbUpdate (x0, x0, y0, y0) x0 (y0 + s)) (x0 + s)
    (y0 + s)) (x0 + s) y0
  have h4 := bbUpdate_widens (bbUpdate (bbUpdate (bbUpdate (x0, x0, y0, y0) x0 (y0 + s))
    (x0 + s) (y0 + s)) (x0 + s) y0) x0 y0
  simp only at h1 hc1 h2 hc2 h3 h4
  omega

/-- The load-computed bounding box of the B square contains the
square. -/
theorem loadBbox_squareB_covers (x0 y0 s : Int) :
    (loadBbox (squareVertsB x0 y0 s)).1 ≤ x0 ∧
    x0 + s ≤ (loadBbox (squareVertsB x0 y0 s)).2.1 ∧
    (loadBbox (squareVertsB x0 y0 s)).2.2.1 ≤ y0 ∧
    y0 + s ≤ (loadBbox (squareVertsB x0 y0 s)).2.2.2 := by
  simp only [loadBbox, squareVertsB, List.foldl_cons, List.foldl_nil]
  have h1 := bbUpdate_widens (x0, x0, y0, y0) (x0 + s) y0
  have hc1 := bbUpdate_covers (x0, x0, y0, y0) (x0 + s) y0
  have h2 := bbUpdate_widens (bbUpdate (x0, x0, y0, y0) (x0 + s) y0) (x0 + s) (y0 + s)
  have hc2 := bbUpdate_covers (bbUpdate (x0, x0, y0, y0) (x0 + s) y0) (x0 + s) (y0 + s)
  have h3 := bbUpdate_widens (bbUpdate (bbUpdate (x0, x0, y0, y0) (x0 + s) y0) (x0 + s)
    (y0 + s)) x0 (y0 + s)
  have h4 := bbUpdate_widens (bbUpdate (bbUpdate (bbUpdate (x0, x0, y0, y0) (x0 + s) y0)
    (x0 + s) (y0 + s)) x0 (y0 + s)) x0 y0
  simp only at h1 hc1 h2 hc2 h3 h4
  omega

/-- point_in_polygonVH on the loaded A square, as one closed-form
classification (the bounding-box fast path agrees with the walk on the
box/square gap). -/
theorem pip_squareA_eq (nen x0 y0 s ax ay : Int) (hs : 1 ≤ s) :
    point_in_polygonVH (mkLoadedPolygon (squareVertsA x0 y0 s) nen) ax ay =
      (if ((ax = x0 ∨ ax = x0 + s) ∧ y0 ≤ ay ∧ ay ≤ y0 + s) ∨
          ((ay = y0 ∨ ay = y0 + s) ∧ x0 ≤ ax ∧ ax ≤ x0 + s) then PIP.boundary
       else if x0 < ax ∧ ax < x0 + s ∧ y0 < ay ∧ ay < y0 + s then PIP.interior
       else PIP.exterior) := by
  have hcov := loadBbox_squareA_covers x0 y0 s
  set p := mkLoadedPolygon (squareVertsA x0 y0 s) nen with hp
  have hxmin : p.xmin = (loadBbox (squareVertsA x0 y0 s)).1 := rfl
  have hxmax : p.xmax = (loadBbox (squareVertsA x0 y0 s)).2.1 := rfl
  have hymin : p.ymin = (loadBbox (squareVertsA x0 y0 s)).2.2.1 := rfl
  have hymax : p.ymax = (loadBbox (squareVertsA x0 y0 s)).2.2.2 := rfl
  rw [point_in_polygonVH]
  split
  case isTrue hout =>
    rw [hxmin, hxmax, hymin, hymax] at hout
    split_ifs with hb hi
    · exfalso; omega
    · exfalso; omega
    · rfl
  case isFalse hin =>
    have hwi : walkIndices p = [1, 2, 3, 4] := rfl
    have hfuel : point_in_polygonVH.walkFuelOk p = true := rfl
    rw [hfuel, if_pos rfl, hwi]
    exact pipRun_squareA x0 y0 s ax ay hs

/-- point_in_polygonVH on the loaded B square, same closed form. -/
theorem pip_squareB_eq (nen x0 y0 s ax ay : Int) (hs : 1 ≤ s) :
    point_in_polygonVH (mkLoadedPolygon (squareVertsB x0 y0 s) nen) ax ay =
      (if ((ax = x0 ∨ ax = x0 + s) ∧ y0 ≤ ay ∧ ay ≤ y0 + s) ∨
          ((ay = y0 ∨ ay = y0 + s) ∧ x0 ≤ ax ∧ ax ≤ x0 + s) then PIP.boundary
       else if x0 < ax ∧ ax < x0 + s ∧ y0 < ay ∧ ay < y0 + s then PIP.interior
       else PIP.exterior) := by
  have hcov := loadBbox_squareB_covers x0 y0 s
  set p := mkLoadedPolygon (squareVertsB x0 y0 s) nen with hp
  have hxmin : p.xmin = (loadBbox (squareVertsB x0 y0 s)).1 := rfl
  have hxmax : p.xmax = (loadBbox (squareVertsB x0 y0 s)).2.1 := rfl
  have hymin : p.ymin = (loadBbox (squareVertsB x0 y0 s)).2.2.1 := rfl
  have hymax : p.ymax = (loadBbox (squareVertsB x0 y0 s)).2.2.2 := rfl
  rw [point_in_polygonVH]
  split
  case isTrue hout =>
    rw [hxmin, hxmax, hymin, hymax] at hout
    split_ifs with hb hi
    · exfalso; omega
    · exfalso; omega
    · rfl
  case isFalse hin =>
    have hwi : walkIndices p = [1, 2, 3, 4] := rfl
    have hfuel : point_in_polygonVH.walkFuelOk p = true := rfl
    rw [hfuel, if_pos rfl, hwi]
    exact pipRun_squareB x0 y0 s ax ay hs

/-- Claim C2: on every simple axis-aligned square polygon (closed five
vertex list, first equal to last, either traversal orientation, loaded
state with the load-computed bounding box and any denominator),
point_in_polygonVH classifies every integer query strictly inside as
interior, exactly on an edge (corners included) as boundary, and
strictly outside as exterior. -/
theorem pip_square_classification (nen x0 y0 s ax ay : Int) (hs : 0 < s) :
    (x0 < ax ∧ ax < x0 + s ∧ y0 < ay ∧ ay < y0 + s →
      point_in_polygonVH (mkLoadedPolygon (squareVertsA x0 y0 s) nen) ax ay = PIP.interior ∧
      point_in_polygonVH (mkLoadedPolygon (squareVertsB x0 y0 s) nen) ax ay = PIP.interior) ∧
    (((ax = x0 ∨ ax = x0 + s) ∧ y0 ≤ ay ∧ ay ≤ y0 + s) ∨
      ((ay = y0 ∨ ay = y0 + s) ∧ x0 ≤ ax ∧ ax ≤ x0 + s) →
      point_in_polygonVH (mkLoadedPolygon (squareVertsA x0 y0 s) nen) ax ay = PIP.boundary ∧
      point_in_polygonVH (mkLoadedPolygon (squareVertsB x0 y0 s) nen) ax ay = PIP.boundary) ∧
    (¬(x0 ≤ ax ∧ ax ≤ x0 + s ∧ y0 ≤ ay ∧ ay ≤ y0 + s) →
      point_in_polygonVH (mkLoadedPolygon (squareVertsA x0 y0 s) nen) ax ay = PIP.exterior ∧
      point_in_polygonVH (mkLoadedPolygon (squareVertsB x0 y0 s) nen) ax ay = PIP.exterior) := by
  rw [pip_squareA_eq nen x0 y0 s ax ay (by omega), pip_squareB_eq nen x0 y0 s ax ay (by omega)]
  refine ⟨fun h => ⟨?_, ?_⟩, fun h => ⟨?_, ?_⟩, fun h => ⟨?_, ?_⟩⟩ <;>
    (split_ifs <;> first | rfl | (exfalso; omega))

/-- Witness for the C2 theorem at a concrete square: the loaded 10x10
square at the origin classifies (5, 5) interior, (0, 5) boundary and
(20, 5) exterior, in both orientations. -/
theorem pip_square_classification_witness :
    point_in_polygonVH (mkLoadedPolygon (squareVertsA 0 0 10) 1) 5 5 = PIP.interior ∧
    point_in_polygonVH (mkLoadedPolygon (squareVertsB 0 0 10) 1) 0 5 = PIP.boundary ∧
    point_in_polygonVH (mkLoadedPolygon (squareVertsA 0 0 10) 1) 20 5 = PIP.exterior :=
  ⟨((pip_square_classification 1 0 0 10 5 5 (by decide)).1 (by decide)).1,
   ((pip_square_classification 1 0 0 10 0 5 (by decide)).2.1 (by decide)).2,
   ((pip_square_classification 1 0 0 10 20 5 (by decide)).2.2 (by decide)).1⟩

/-- getPoint after setPoint, the array-store law of Charmap. -/
theorem getPoint_setPoint (c : Charmap) (x y : Int) (v : Nat) (a b : Int) :
    (c.setPoint x y v).getPoint a b = if a = x ∧ b = y then v else c.getPoint a b := rfl

/-- A cell whose promotion trigger is off leaves the sweep state
unchanged. -/
theorem fusionCell_no_trigger (relf : Nat) (c : Charmap) (x y : Int) (b : Bool)
    (htr : fusionTrigger relf c x y = false) :
    fusionCell relf x y (c, b) = (c, b) := by
  rw [fusionTrigger] at htr
  simp only [fusionCell]
  split_ifs with h1 h2 h3 h4 h5
  · rfl
  · exfalso
    have h1x : c.getPoint x y = relf := not_not.mp h1
    simp [h1x, h2, h3] at htr
  · rfl
  · exfalso
    have h1x : c.getPoint x y = relf := not_not.mp h1
    simp [h1x, h2, h4, h5] at htr
  · rfl
  · rfl

/-- A cell whose promotion trigger is on raises the changed flag. -/
theorem fusionCell_trigger (relf : Nat) (c : Charmap) (x y : Int) (b : Bool)
    (htr : fusionTrigger relf c x y = true) :
    (fusionCell relf x y (c, b)).2 = true := by
  rw [fusionTrigger] at htr
  simp only [fusionCell]
  split_ifs with h1 h2 h3 h4 h5
  · exfalso; simp at htr; omega
  · rfl
  · exfalso
    have h1x : c.getPoint x y = relf := not_not.mp h1
    simp [h1x, h2, h3] at htr
  · rfl
  · exfalso
    have h1x : c.getPoint x y = relf := not_not.mp h1
    simp [h1x, h2, h4, h5] at htr
  · exfalso
    have h1x : c.getPoint x y = relf := not_not.mp h1
    simp [h1x, h2, h4] at htr

/-- The changed flag is sticky along a sweep. -/
theorem fusionFold_snd_mono (relf : Nat) :
    ∀ (cells : List (Int × Int)) (st : Charmap × Bool),
    (cells.foldl (fun st2 q => fusionCell relf q.1 q.2 st2) st).2 = false → st.2 = false := by
  intro cells
  induction cells with
  | nil => intro st h; exact h
  | cons q rest ih =>
    intro st h
    have h2 := ih (fusionCell relf q.1 q.2 st) h
    revert h2
    rw [fusionCell]
    split_ifs <;> simp

/-- A sweep that reports no change left the canvas untouched and found
every cell trigger off. -/
theorem fusionFold_false (relf : Nat) :
    ∀ (cells : List (Int × Int)) (c : Charmap),
    (cells.foldl (fun st2 q => fusionCell relf q.1 q.2 st2) (c, false)).2 = false →
    (cells.foldl (fun st2 q => fusionCell relf q.1 q.2 st2) (c, false)).1 = c ∧
    ∀ q ∈ cells, fusionTrigger relf c q.1 q.2 = false := by
  intro cells
  induction cells with
  | nil => intro c _; exact ⟨rfl, by simp⟩
  | cons q rest ih =>
    intro c h
    simp only [List.foldl_cons] at h ⊢
    have htr : fusionTrigger relf c q.1 q.2 = false := by
      cases htr : fusionTrigger relf c q.1 q.2
      · rfl
      · exfalso
        have hsnd := fusionFold_snd_mono relf rest (fusionCell relf q.1 q.2 (c, false)) h
        rw [fusionCell_trigger relf c q.1 q.2 false htr] at hsnd
        exact absurd hsnd (by simp)
    rw [fusionCell_no_trigger relf c q.1 q.2 false htr] at h ⊢
    obtain ⟨hc, hall⟩ := ih c h
    refine ⟨hc, ?_⟩
    intro r hr
    rcases List.mem_cons.mp hr with rfl | hr2
    · exact htr
    · exact hall r hr2

/-- Claim C3 (amended): once the snippet-fusion loop reaches its fixed
point, no cell of the sweep range still satisfies the promotion
trigger — every two-pixel gap of targetClass between active-working
pixels whose gray-free flank test passes (and, for the vertical
pattern, whose horizontal core pattern fails, per the else-if order of
the source) has been promoted.  One-pixel gaps are not part of the
trigger and are never promoted (see the counterexample theorem). -/
theorem fusion_fixpoint_no_trigger (relf fuel : Nat) (c : Charmap)
    (hfix : (fusionLoop relf fuel c).2 = true) (x y : Int)
    (hmem : (x, y) ∈ fusionCells (fusionLoop relf fuel c).1) :
    fusionTrigger relf (fusionLoop relf fuel c).1 x y = false := by
  induction fuel generalizing c with
  | zero => simp [fusionLoop] at hfix
  | succ f ih =>
    rw [fusionLoop] at hfix hmem ⊢
    revert hfix hmem
    cases hp : fusionPass relf c with
    | mk c2 ch =>
      cases ch with
      | true =>
        intro hfix hmem
        exact ih c2 hfix hmem
      | false =>
        intro hfix hmem
        have hfold := fusionFold_false relf (fusionCells c) c (by
          have : (fusionPass relf c).2 = false := by rw [hp]
          simpa [fusionPass] using this)
        have hc2 : c2 = c := by
          have : (fusionPass relf c).1 = c := hfold.1
          rw [hp] at this
          exact this
        subst hc2
        exact hfold.2 (x, y) hmem

/-- Witness for the amended C3 theorem: on twoGapCanvas the loop does
promote the two-pixel gap (pixel (2,3) becomes AKTIVCOL), reaches its
fixed point, and the trigger is off at (1,3) afterwards. -/
theorem fusion_fixpoint_no_trigger_witness :
    fusionTrigger COLORBLACK (fusionLoop COLORBLACK 4 twoGapCanvas).1 1 3 = false ∧
    (fusionLoop COLORBLACK 4 twoGapCanvas).1.getPoint 2 3 = AKTIVCOL ∧
    (fusionLoop COLORBLACK 4 twoGapCanvas).1.getPoint 3 3 = AKTIVCOL :=
  ⟨fusion_fixpoint_no_trigger COLORBLACK 4 twoGapCanvas (by decide) 1 3 (by decide),
   by decide, by decide⟩

/-- Overwriting a pixel with a different color never increases the
count of the old color. -/
theorem colorCount_setPoint_le (c : Charmap) (x y : Int) (v f : Nat) (hv : v ≠ f) :
    colorCount (c.setPoint x y v) f ≤ colorCount c f := by
  apply Finset.card_le_card
  intro q hq
  simp only [colorCount, Finset.mem_filter] at hq ⊢
  refine ⟨hq.1, ?_⟩
  have h2 := hq.2
  rw [Charmap.getPoint] at h2 ⊢
  simp only [Charmap.setPoint] at h2
  by_cases he : q.1 = x ∧ q.2 = y
  · rw [if_pos he] at h2; exact absurd h2 hv
  · rwa [if_neg he] at h2

/-- Overwriting an in-grid pixel of color f with a different color
strictly decreases the count of f. -/
theorem colorCount_setPoint_lt (c : Charmap) (x y : Int) (v f : Nat) (hv : v ≠ f)
    (hx1 : 0 ≤ x) (hx2 : x < (c.xlen : Int)) (hy1 : 0 ≤ y) (hy2 : y < (c.ylen : Int))
    (hf : c.getPoint x y = f) :
    colorCount (c.setPoint x y v) f < colorCount c f := by
  apply Finset.card_lt_card
  rw [Finset.ssubset_iff_of_subset]
  · refine ⟨(x, y), ?_, ?_⟩
    · simp only [colorCount, Finset.mem_filter, Finset.mem_product, Finset.mem_Icc]
      exact ⟨⟨⟨hx1, by omega⟩, ⟨hy1, by omega⟩⟩, hf⟩
    · simp only [colorCount, Finset.mem_filter, Charmap.getPoint, Charmap.setPoint]
      intro hmem
      simp at hmem
      exact hv hmem.2
  · intro q hq
    simp only [colorCount, Finset.mem_filter] at hq ⊢
    refine ⟨hq.1, ?_⟩
    have h2 := hq.2
    rw [Charmap.getPoint] at h2 ⊢
    simp only [Charmap.setPoint] at h2
    by_cases he : q.1 = x ∧ q.2 = y
    · rw [if_pos he] at h2; exact absurd h2 hv
    · rwa [if_neg he] at h2

/-- setPoint keeps the grid dimensions. -/
theorem setPoint_dims (c : Charmap) (x y : Int) (v : Nat) :
    (c.setPoint x y v).xlen = c.xlen ∧ (c.setPoint x y v).ylen = c.ylen := ⟨rfl, rfl⟩

/-- One sweep cell keeps the grid dimensions. -/
theorem fusionCell_dims (relf : Nat) (x y : Int) (st : Charmap × Bool) :
    (fusionCell relf x y st).1.xlen = st.1.xlen ∧
    (fusionCell relf x y st).1.ylen = st.1.ylen := by
  simp only [fusionCell]
  split_ifs <;> exact ⟨rfl, rfl⟩

/-- One sweep cell never increases the targetClass count, and a fresh
promotion strictly decreases it (AKTIVCOL overwrites two in-grid
targetClass pixels). -/
theorem fusionCell_count (relf : Nat) (hrelf : relf ≠ AKTIVCOL) (x y : Int)
    (st : Charmap × Bool)
    (hx1 : 1 ≤ x) (hx2 : x + 2 ≤ (st.1.xlen : Int) - 1)
    (hy1 : 1 ≤ y) (hy2 : y + 2 ≤ (st.1.ylen : Int) - 1) :
    colorCount (fusionCell relf x y st).1 relf ≤ colorCount st.1 relf ∧
    ((fusionCell relf x y st).2 = true → st.2 = true ∨
      colorCount (fusionCell relf x y st).1 relf < colorCount st.1 relf) := by
  obtain ⟨c, b⟩ := st
  simp only at hx2 hy2
  simp only [fusionCell]
  split_ifs with h1 h2 h3 h4 h5
  · exact ⟨le_refl _, fun h => Or.inl h⟩
  · -- horizontal promotion
    have h1x : c.getPoint x y = relf := not_not.mp h1
    have hstep1 : colorCount (c.setPoint x y AKTIVCOL) relf < colorCount c relf := by
      apply colorCount_setPoint_lt c x y AKTIVCOL relf (fun hh => hrelf hh.symm) (by omega)
        (by omega) (by omega) (by omega) h1x
    have hstep2 : colorCount ((c.setPoint x y AKTIVCOL).setPoint (x + 1) y AKTIVCOL) relf ≤
        colorCount (c.setPoint x y AKTIVCOL) relf :=
      colorCount_setPoint_le _ _ _ _ _ (fun hh => hrelf hh.symm)
    constructor
    · simp only
      omega
    · intro _
      right
      simp only
      omega
  · exact ⟨le_refl _, fun h => Or.inl h⟩
  · -- vertical promotion
    have h1x : c.getPoint x y = relf := not_not.mp h1
    have hstep1 : colorCount (c.setPoint x y AKTIVCOL) relf < colorCount c relf := by
      apply colorCount_setPoint_lt c x y AKTIVCOL relf (fun hh => hrelf hh.symm) (by omega)
        (by omega) (by omega) (by omega) h1x
    have hstep2 : colorCount ((c.setPoint x y AKTIVCOL).setPoint x (y + 1) AKTIVCOL) relf ≤
        colorCount (c.setPoint x y AKTIVCOL) relf :=
      colorCount_setPoint_le _ _ _ _ _ (fun hh => hrelf hh.symm)
    constructor
    · simp only
      omega
    · intro _
      right
      simp only
      omega
  · exact ⟨le_refl _, fun h => Or.inl h⟩
  · exact ⟨le_refl _, fun h => Or.inl h⟩

/-- Every sweep cell lies two pixels clear of the right and bottom grid
edges and one clear of the left and top ones. -/
theorem fusionCells_bounds (c : Charmap) :
    ∀ q ∈ fusionCells c, 1 ≤ q.1 ∧ q.1 + 2 ≤ (c.xlen : Int) - 1 ∧
      1 ≤ q.2 ∧ q.2 + 2 ≤ (c.ylen : Int) - 1 := by
  intro q hq
  rw [fusionCells] at hq
  obtain ⟨y, hy, hq2⟩ := List.mem_flatMap.mp hq
  obtain ⟨x, hx, hxy⟩ := List.mem_map.mp hq2
  have hyb := List.mem_range'_1.mp hy
  have hxb := List.mem_range'_1.mp hx
  rw [← hxy]
  simp only [Int.ofNat_eq_natCast]
  omega

/-- A full sweep never increases the targetClass count and strictly
decreases it when it reports a change. -/
theorem fusionFold_count (relf : Nat) (hrelf : relf ≠ AKTIVCOL) :
    ∀ (cells : List (Int × Int)) (st : Charmap × Bool),
    (∀ q ∈ cells, 1 ≤ q.1 ∧ q.1 + 2 ≤ (st.1.xlen : Int) - 1 ∧
      1 ≤ q.2 ∧ q.2 + 2 ≤ (st.1.ylen : Int) - 1) →
    colorCount (cells.foldl (fun st2 q => fusionCell relf q.1 q.2 st2) st).1 relf ≤
      colorCount st.1 relf ∧
    ((cells.foldl (fun st2 q => fusionCell relf q.1 q.2 st2) st).2 = true →
      st.2 = true ∨
      colorCount (cells.foldl (fun st2 q => fusionCell relf q.1 q.2 st2) st).1 relf <
        colorCount st.1 relf) := by
  intro cells
  induction cells with
  | nil => intro st _; exact ⟨le_refl _, fun h => Or.inl h⟩
  | cons q rest ih =>
    intro st hb
    simp only [List.foldl_cons]
    obtain ⟨hq1, hq2, hq3, hq4⟩ := hb q (List.mem_cons_self q rest)
    have hstep := fusionCell_count relf hrelf q.1 q.2 st hq1 hq2 hq3 hq4
    have hdims := fusionCell_dims relf q.1 q.2 st
    have hbrest : ∀ r ∈ rest, 1 ≤ r.1 ∧
        r.1 + 2 ≤ ((fusionCell relf q.1 q.2 st).1.xlen : Int) - 1 ∧
        1 ≤ r.2 ∧ r.2 + 2 ≤ ((fusionCell relf q.1 q.2 st).1.ylen : Int) - 1 := by
      intro r hr
      rw [hdims.1, hdims.2]
      exact hb r (List.mem_cons_of_mem q hr)
    have hrest := ih (fusionCell relf q.1 q.2 st) hbrest
    constructor
    · exact le_trans hrest.1 hstep.1
    · intro hch
      rcases hrest.2 hch with hst1 | hlt
      · rcases hstep.2 hst1 with hst | hlt2
        · exact Or.inl hst
        · exact Or.inr (lt_of_le_of_lt hrest.1 hlt2)
      · exact Or.inr (lt_of_lt_of_le hlt hstep.1)

/-- A sweep that reports a change strictly decreased the targetClass
count. -/
theorem fusionPass_count (relf : Nat) (hrelf : relf ≠ AKTIVCOL) (c : Charmap)
    (hch : (fusionPass relf c).2 = true) :
    colorCount (fusionPass relf c).1 relf < colorCount c relf := by
  have h := fusionFold_count relf hrelf (fusionCells c) (c, false)
    (fun q hq => fusionCells_bounds c q hq)
  rcases (h.2 (by simpa [fusionPass] using hch)) with hst | hlt
  · exact absurd hst (by simp)
  · simpa [fusionPass] using hlt

/-- With fuel above the targetClass pixel count the fusion loop reaches
its fixed point. -/
theorem fusionLoop_reaches_fixpoint (relf : Nat) (hrelf : relf ≠ AKTIVCOL) :
    ∀ (fuel : Nat) (c : Charmap), colorCount c relf < fuel →
    (fusionLoop relf fuel c).2 = true := by
  intro fuel
  induction fuel with
  | zero => intro c h; omega
  | succ f ih =>
    intro c h
    rw [fusionLoop]
    cases hp : fusionPass relf c with
    | mk c2 ch =>
      cases ch with
      | true =>
        have hlt := fusionPass_count relf hrelf c (by rw [hp])
        rw [hp] at hlt
        exact ih c2 (by simp at hlt; omega)
      | false => rfl

/-- A found COLORBLUE neighbour really carries COLORBLUE. -/
theorem nextBlue_some (c : Charmap) (x y nx ny : Int)
    (h : nextBlue c x y = some (nx, ny)) : c.getPoint nx ny = COLORBLUE := by
  rw [nextBlue] at h
  split_ifs at h with h1 h2 h3 h4 <;>
    simp only [Option.some.injEq, Prod.mk.injEq] at h
  · obtain ⟨rfl, rfl⟩ := h; exact h1
  · obtain ⟨rfl, rfl⟩ := h; exact h2
  · obtain ⟨rfl, rfl⟩ := h; exact h3
  · obtain ⟨rfl, rfl⟩ := h; exact h4

/-- Marking a pixel COLORYELLOW preserves the no-blue-outside
invariant. -/
theorem noBlueOutside_setYellow (c : Charmap) (x y : Int) (h : noBlueOutside c) :
    noBlueOutside (c.setPoint x y COLORYELLOW) := by
  intro a b hout
  rw [getPoint_setPoint]
  split_ifs with he
  · decide
  · exact h a b hout

/-- With fuel above the COLORBLUE pixel count the boundary walk never
exhausts its fuel: every step consumes one still-unmarked blue pixel
of the finite grid. -/
theorem walkLoop_no_fuelout (skala : ℚ) (r0 nen sx sy : Int) :
    ∀ (fuel : Nat) (c : Charmap) (ax ay : Int) (p : Polygon),
    noBlueOutside c → colorCount c COLORBLUE < fuel →
    (walkLoop skala r0 nen sx sy fuel c ax ay p).isFuelout = false := by
  intro fuel
  induction fuel with
  | zero => intro c ax ay p _ h; omega
  | succ f ih =>
    intro c ax ay p hnb h
    rw [walkLoop]
    split
    · rfl
    · cases hnx : nextBlue c ax ay with
      | none => rfl
      | some q =>
        obtain ⟨nx, ny⟩ := q
        have hblue := nextBlue_some c ax ay nx ny hnx
        have hin : 0 ≤ nx ∧ nx < (c.xlen : Int) ∧ 0 ≤ ny ∧ ny < (c.ylen : Int) := by
          by_contra hout
          exact hnb nx ny (by tauto) hblue
        have hdec : colorCount (c.setPoint nx ny COLORYELLOW) COLORBLUE <
            colorCount c COLORBLUE :=
          colorCount_setPoint_lt c nx ny COLORYELLOW COLORBLUE (by decide)
            hin.1 hin.2.1 hin.2.2.1 hin.2.2.2 hblue
        exact ih (c.setPoint nx ny COLORYELLOW) nx ny _
          (noBlueOutside_setYellow c nx ny hnb) (by omega)

/-- Claim C7: both central loops terminate.  The snippet-fusion loop of
floodFillPattern reaches its fixed point within
(targetClass pixel count + 1) sweeps, because every changing sweep
strictly decreases that count, which the canvas bounds; and the
boundary walk of buildPolygon completes (closes or reports the fatal
not-closable error, never running out) within
(COLORBLUE pixel count + 1) steps, because every step consumes a
previously unconsumed boundary pixel of the finite grid. -/
theorem fusion_and_walk_terminate :
    (∀ (relf : Nat) (c : Charmap), relf ≠ AKTIVCOL →
      (fusionLoop relf (colorCount c relf + 1) c).2 = true) ∧
    (∀ (skala : ℚ) (r0 nen sx sy ax ay : Int) (c : Charmap) (p : Polygon),
      noBlueOutside c →
      (walkLoop skala r0 nen sx sy (colorCount c COLORBLUE + 1) c ax ay p).isFuelout =
        false) := by
  constructor
  · intro relf c hrelf
    exact fusionLoop_reaches_fixpoint relf hrelf (colorCount c relf + 1) c (by omega)
  · intro skala r0 nen sx sy ax ay c p hnb
    exact walkLoop_no_fuelout skala r0 nen sx sy (colorCount c COLORBLUE + 1) c ax ay p
      hnb (by omega)

/-- Witness for the C7 theorem on a concrete canvas: the all-white 6x6
canvas reaches the fusion fixed point at once and the walk from the
start pixel closes immediately, with fuel given by the respective
counts. -/
theorem fusion_and_walk_terminate_witness :
    (fusionLoop COLORBLACK (colorCount whiteCanvas COLORBLACK + 1) whiteCanvas).2 = true ∧
    (walkLoop 1 0 1 0 0 (colorCount whiteCanvas COLORBLUE + 1) whiteCanvas 0 0
      pEmpty).isFuelout = false :=
  ⟨fusion_and_walk_terminate.1 COLORBLACK whiteCanvas (by decide),
   fusion_and_walk_terminate.2 1 0 1 0 0 0 0 whiteCanvas pEmpty
     (by intro a b h; simp [whiteCanvas, Charmap.getPoint, COLORWHITE, COLORBLUE])⟩

/-- Every character produced by digChar is a decimal digit. -/
theorem digChar_isDigit (d : Nat) : isDigitC (digChar d) = true := by
  rcases d with _|_|_|_|_|_|_|_|_|d <;> rfl

/-- digitValC inverts digChar on the single-digit range. -/
theorem digChar_val (d : Nat) (h : d < 10) : digitValC (digChar d) = d := by
  interval_cases d <;> rfl

/-- digChar of a nonzero single digit is not the character zero. -/
theorem digChar_ne_zero (d : Nat) (h1 : 0 < d) (h2 : d < 10) : digChar d ≠ '0' := by
  interval_cases d <;> decide

/-- The printed digit string of a natural number is never empty. -/
theorem natDigits_ne_nil (n : Nat) : natDigits n ≠ [] := by
  rw [natDigits]
  split_ifs <;> simp

/-- The digit munch consumes a printed digit string entirely,
shifting the accumulator by one decimal place per digit and adding the
printed value. -/
theorem munch_natDigits :
    ∀ n acc (rest : Line), munchDigits isDigitC digitValC 10 (natDigits n ++ rest) acc =
      munchDigits isDigitC digitValC 10 rest (acc * 10 ^ (natDigits n).length + n) := by
  intro n
  induction n using Nat.strong_induction_on with
  | _ n ih =>
    intro acc rest
    by_cases h : n < 10
    · rw [natDigits, if_pos h]
      simp only [List.singleton_append, List.length_cons, List.length_nil, munchDigits]
      rw [if_pos (digChar_isDigit n), digChar_val n h]
      congr 1
      ring
    · have hlen : (natDigits n).length = (natDigits (n / 10)).length + 1 := by
        conv_lhs => rw [natDigits]
        rw [if_neg h]
        simp
      conv_lhs => rw [natDigits]
      rw [if_neg h, List.append_assoc,
        ih (n / 10) (Nat.div_lt_self (by omega) (by omega)) acc]
      simp only [List.singleton_append, munchDigits]
      rw [if_pos (digChar_isDigit _), digChar_val _ (Nat.mod_lt _ (by omega))]
      congr 1
      rw [hlen, pow_succ]
      have key : 10 * (n / 10) + n % 10 = n := Nat.div_add_mod n 10
      calc 10 * (acc * 10 ^ (natDigits (n / 10)).length + n / 10) + n % 10
          = acc * (10 ^ (natDigits (n / 10)).length * 10) + (10 * (n / 10) + n % 10) := by
            ring
        _ = acc * (10 ^ (natDigits (n / 10)).length * 10) + n := by rw [key]

/-- The printed digit string starts with a digit character, and
with a nonzero one when the number is positive (printf writes no leading
zeros). -/
theorem natDigits_cons :
    ∀ n, ∃ c l, natDigits n = c :: l ∧ isDigitC c = true ∧ (0 < n → c ≠ '0') := by
  intro n
  induction n using Nat.strong_induction_on with
  | _ n ih =>
    by_cases h : n < 10
    · refine ⟨digChar n, [], by rw [natDigits, if_pos h], digChar_isDigit n, ?_⟩
      intro hp
      exact digChar_ne_zero n hp h
    · obtain ⟨c, l, heq, hd, hz⟩ := ih (n / 10) (Nat.div_lt_self (by omega) (by omega))
      refine ⟨c, l ++ [digChar (n % 10)], ?_, hd, fun _ => hz (by omega)⟩
      rw [natDigits, if_neg h, heq]
      rfl

/-- The digit munch stops immediately on an empty line or a
non-digit head, returning the accumulator. -/
theorem munch_stop (acc : Nat) (rest : Line)
    (hrest : rest = [] ∨ ∃ c l, rest = c :: l ∧ isDigitC c = false) :
    munchDigits isDigitC digitValC 10 rest acc = (acc, rest) := by
  rcases hrest with rfl | ⟨c, l, rfl, hc⟩
  · rfl
  · rw [munchDigits, if_neg (by simp [hc])]

/-- The %I64d magnitude parser reads back exactly the printed
digit string of a natural number. -/
theorem parseNat_natDigits (n : Nat) (rest : Line)
    (hrest : rest = [] ∨ ∃ c l, rest = c :: l ∧ isDigitC c = false) :
    parseNat (natDigits n ++ rest) = some (n, rest) := by
  obtain ⟨c, l, heq, hd, _⟩ := natDigits_cons n
  rw [heq, List.cons_append, parseNat, if_pos hd, ← List.cons_append, ← heq,
    munch_natDigits n 0 rest]
  simp only [Nat.zero_mul, Nat.zero_add]
  rw [munch_stop n rest hrest]

/-- The %I64d conversion on a leading minus parses the magnitude
and negates. -/
theorem parseLLD_minus (rest : Line) :
    parseLLD ('-' :: rest) = (parseNat rest).map fun r => (-(r.1 : Int), r.2) := rfl

/-- A digit character is not whitespace, not a sign character,
and has character code at least 32. -/
theorem isDigitC_facts (c : Char) (h : isDigitC c = true) :
    isSpaceC c = false ∧ c ≠ '-' ∧ c ≠ '+' ∧ 32 ≤ c.toNat := by
  simp only [isDigitC, Bool.and_eq_true, decide_eq_true_eq] at h
  refine ⟨by simp [isSpaceC]; omega, ?_, ?_, by omega⟩
  · intro hc; rw [hc] at h; simp at h
  · intro hc; rw [hc] at h; simp at h

/-- The %I64d conversion on a leading digit skips no characters
and parses the magnitude unsigned. -/
theorem parseLLD_digit (c : Char) (rest : Line) (hc : isDigitC c = true) :
    parseLLD (c :: rest) = (parseNat (c :: rest)).map fun r => ((r.1 : Int), r.2) := by
  obtain ⟨hsp, hminus, hplus, _⟩ := isDigitC_facts c hc
  rw [parseLLD]
  rw [List.dropWhile_cons, if_neg (by simp [hsp])]
  split
  · rename_i heq
    exfalso
    apply hminus
    injection heq
  · rename_i heq
    exfalso
    apply hplus
    injection heq
  · rfl

/-- Round trip of the denominator line: parseLLD reads back
exactly the integer printed by printInt. -/
theorem parseLLD_printInt (n : Int) : parseLLD (printInt n) = some (n, []) := by
  by_cases h : n < 0
  · rw [printInt, if_pos h, parseLLD_minus]
    rw [← List.append_nil (natDigits n.natAbs), parseNat_natDigits _ [] (Or.inl rfl)]
    simp only [Option.map_some']
    congr 2
    omega
  · rw [printInt, if_neg h]
    obtain ⟨c, l, heq, hd, _⟩ := natDigits_cons n.natAbs
    rw [heq, parseLLD_digit c l hd, ← heq,
      ← List.append_nil (natDigits n.natAbs), parseNat_natDigits _ [] (Or.inl rfl)]
    simp only [Option.map_some']
    congr 2
    omega

/-- The octal munch of the %i conversion stops at a comma. -/
theorem munchOct_stop (acc : Nat) (l : Line) :
    munchDigits isOctC digitValC 8 (',' :: l) acc = (acc, ',' :: l) := by
  rw [munchDigits, if_neg (by decide)]

/-- The %i magnitude parser reads back the printed digit
string of a natural number when followed by nothing or a comma: a zero is
printed as the single character 0, which %i reads as an empty octal
prefix with value 0, and a positive number starts with a nonzero digit,
which %i reads as decimal. -/
theorem parseUnsignedI_natDigits (m : Nat) (rest : Line)
    (hrest : rest = [] ∨ ∃ l, rest = ',' :: l) :
    parseUnsignedI (natDigits m ++ rest) = some (m, rest) := by
  by_cases hm : m = 0
  · subst hm
    have h0 : natDigits 0 = ['0'] := by rw [natDigits]; decide
    rw [h0]
    rcases hrest with rfl | ⟨l, rfl⟩
    · rfl
    · rw [List.singleton_append]
      simp only [parseUnsignedI]
      rw [munchOct_stop]
      split
      · rename_i hx
        exact absurd hx (by decide)
      · rfl
  · obtain ⟨c, l, heq, hd, hz⟩ := natDigits_cons m
    have hcz : c ≠ '0' := hz (by omega)
    have hrd : rest = [] ∨ ∃ c2 l2, rest = c2 :: l2 ∧ isDigitC c2 = false := by
      rcases hrest with rfl | ⟨l2, rfl⟩
      · exact Or.inl rfl
      · exact Or.inr ⟨',', l2, rfl, by decide⟩
    rw [heq, List.cons_append, parseUnsignedI.eq_def]
    split
    · rename_i heq2
      exfalso
      apply hcz
      injection heq2
    · rename_i heq2
      exfalso
      apply hcz
      have := congrArg (fun t => t.headD ' ') heq2
      simpa using this
    · rename_i heq2
      injection heq2 with h1 h2
      subst h1
      subst h2
      rw [if_pos hd, ← List.cons_append, ← heq, munch_natDigits m 0 rest]
      simp only [Nat.zero_mul, Nat.zero_add]
      rw [munch_stop m rest hrd]
    · rename_i heq2
      exact absurd heq2 (by simp)

/-- The %i conversion on a leading minus parses the magnitude and
negates. -/
theorem parseI_minus (rest : Line) :
    parseI ('-' :: rest) = (parseUnsignedI rest).map fun r => (-(r.1 : Int), r.2) := rfl

/-- The %i conversion on a leading digit skips no characters and
parses the magnitude unsigned. -/
theorem parseI_digit (c : Char) (rest : Line) (hc : isDigitC c = true) :
    parseI (c :: rest) = (parseUnsignedI (c :: rest)).map fun r => ((r.1 : Int), r.2) := by
  obtain ⟨hsp, hminus, hplus, _⟩ := isDigitC_facts c hc
  rw [parseI]
  rw [List.dropWhile_cons, if_neg (by simp [hsp])]
  split
  · rename_i heq
    exfalso
    apply hminus
    injection heq
  · rename_i heq
    exfalso
    apply hplus
    injection heq
  · rfl

/-- Round trip of one %i field: parseI reads back exactly the
integer printed by printInt when the remainder is empty or starts with a
comma. -/
theorem parseI_print (n : Int) (rest : Line)
    (hrest : rest = [] ∨ ∃ l, rest = ',' :: l) :
    parseI (printInt n ++ rest) = some (n, rest) := by
  by_cases h : n < 0
  · rw [printInt, if_pos h, List.cons_append, parseI_minus,
      parseUnsignedI_natDigits n.natAbs rest hrest]
    simp only [Option.map_some']
    congr 2
    omega
  · rw [printInt, if_neg h]
    obtain ⟨c, l, heq, hd, _⟩ := natDigits_cons n.natAbs
    rw [heq, List.cons_append, parseI_digit c (l ++ rest) hd, ← List.cons_append, ← heq,
      parseUnsignedI_natDigits n.natAbs rest hrest]
    simp only [Option.map_some']
    congr 2
    omega

/-- Round trip of one vertex line: the %i,%i parser reads back
the two printed coordinates. -/
theorem parsePoint_print (x y : Int) :
    parsePoint (printInt x ++ [','] ++ printInt y) = some (x, y, []) := by
  have h1 : printInt x ++ [','] ++ printInt y = printInt x ++ (',' :: printInt y) := by
    simp
  rw [parsePoint, h1, parseI_print x (',' :: printInt y) (Or.inr ⟨printInt y, rfl⟩)]
  simp only []
  have h2 := parseI_print y [] (Or.inl rfl)
  rw [List.append_nil] at h2
  rw [h2]
  rfl

/-- chomp leaves a line without control characters unchanged. -/
theorem chomp_keep (s : Line) (hs : ∀ c ∈ s, 32 ≤ c.toNat) : chomp s = s := by
  rw [chomp]
  cases hr : s.reverse with
  | nil =>
    have hsnil : s = [] := by simpa using congrArg List.reverse hr
    rw [hsnil]
    rfl
  | cons c t =>
    have hc : c ∈ s := by
      rw [← List.mem_reverse, hr]
      exact List.mem_cons_self c t
    rw [List.dropWhile_cons,
      if_neg (by have := hs c hc; simp only [decide_eq_true_eq]; omega),
      ← hr, List.reverse_reverse]

/-- Every character of a printed digit string is a digit. -/
theorem natDigits_mem (n : Nat) : ∀ c ∈ natDigits n, isDigitC c = true := by
  induction n using Nat.strong_induction_on with
  | _ n ih =>
    intro c hc
    rw [natDigits] at hc
    split at hc
    · rcases List.mem_singleton.mp hc with rfl
      exact digChar_isDigit n
    · rename_i h
      rcases List.mem_append.mp hc with hc | hc
      · exact ih (n / 10) (Nat.div_lt_self (by omega) (by omega)) c hc
      · rcases List.mem_singleton.mp hc with rfl
        exact digChar_isDigit _

/-- printInt produces no control characters. -/
theorem printInt_ge32 (n : Int) : ∀ c ∈ printInt n, 32 ≤ c.toNat := by
  intro c hc
  have hdig : ∀ d ∈ natDigits n.natAbs, 32 ≤ d.toNat := by
    intro d hd
    exact (isDigitC_facts d (natDigits_mem n.natAbs d hd)).2.2.2
  rw [printInt] at hc
  split at hc
  · rcases List.mem_cons.mp hc with rfl | hc
    · decide
    · exact hdig c hc
  · exact hdig c hc

/-- A printed vertex line contains no control characters. -/
theorem pointLine_ge32 (x y : Int) :
    ∀ c ∈ printInt x ++ [','] ++ printInt y, 32 ≤ c.toNat := by
  intro c hc
  simp only [List.append_assoc, List.mem_append, List.mem_cons, List.not_mem_nil,
    or_false] at hc
  rcases hc with hc | rfl | hc
  · exact printInt_ge32 x c hc
  · decide
  · exact printInt_ge32 y c hc

/-- The point-reading loop of Polygon::load, run on the
vertex lines written by Polygon::save, returns exactly the saved vertex
list. -/
theorem loadPointsLoop_print :
    ∀ (pts : List PolygonPoint) (rest : List Line) (erster : Bool)
      (bb : Int × Int × Int × Int) (buf : Line),
      ∃ bb2 rd2, loadPointsLoop pts.length
          ⟨(pts.map fun q => printInt q.x ++ [','] ++ printInt q.y) ++ rest, buf⟩ erster bb =
        some (pts, bb2, rd2) := by
  intro pts
  induction pts with
  | nil => intro rest erster bb buf; exact ⟨bb, ⟨rest, buf⟩, rfl⟩
  | cons q t ih =>
    intro rest erster bb buf
    obtain ⟨bb3, rd3, hrec⟩ := ih rest false
      (if erster then (q.x, q.x, q.y, q.y) else bbUpdate bb q.x q.y)
      (printInt q.x ++ [','] ++ printInt q.y)
    refine ⟨bb3, rd3, ?_⟩
    simp only [List.length_cons, List.map_cons, List.cons_append, loadPointsLoop, readLine]
    rw [chomp_keep _ (pointLine_ge32 q.x q.y), parsePoint_print q.x q.y]
    simp only []
    rw [hrec]

/-- Success of the point-reading loop depends only on the
reader, not on the bounding box accumulator or the first-point flag:
it equals the pointsOK predicate. -/
theorem loadPointsLoop_isSome_eq :
    ∀ (n : Nat) (r : Reader) (erster : Bool) (bb : Int × Int × Int × Int),
      (loadPointsLoop n r erster bb).isSome = pointsOK n r := by
  intro n
  induction n with
  | zero => intro r e bb; rfl
  | succ m ih =>
    intro r e bb
    simp only [loadPointsLoop, pointsOK]
    cases hp : parsePoint (chomp (readLine r).buf) with
    | none => rfl
    | some v =>
      obtain ⟨ax, ay, rst⟩ := v
      simp only [Option.isSome_some, Bool.true_and]
      rw [← ih (readLine r) false (if e then (ax, ax, ay, ay) else bbUpdate bb ax ay)]
      cases h1 : loadPointsLoop m (readLine r) false
          (if e then (ax, ax, ay, ay) else bbUpdate bb ax ay) with
      | none => rfl
      | some w =>
        obtain ⟨pts, bb3, r3⟩ := w
        rfl

/-- On a reader holding at least n lines, the point loop succeeds
exactly when each of the first n lines parses as an %i,%i vertex line. -/
theorem pointsOK_lines :
    ∀ (n : Nat) (lines : List Line) (buf : Line), n ≤ lines.length →
      (pointsOK n ⟨lines, buf⟩ = true ↔
        ∀ l ∈ lines.take n, (parsePoint (chomp l)).isSome = true) := by
  intro n
  induction n with
  | zero => intro lines buf _; simp [pointsOK]
  | succ m ih =>
    intro lines buf hlen
    cases lines with
    | nil => simp at hlen
    | cons l rest =>
      simp only [pointsOK, readLine, List.take_succ_cons, Bool.and_eq_true]
      rw [ih rest l (by simpa using hlen)]
      constructor
      · rintro ⟨h1, h2⟩ l2 hl2
        rcases List.mem_cons.mp hl2 with rfl | hl2
        · exact h1
        · exact h2 l2 hl2
      · intro h
        exact ⟨h l (List.mem_cons_self l _),
          fun l2 hl2 => h l2 (List.mem_cons.mpr (Or.inr hl2))⟩

/-- Polygon::load aborts (exit(99), modelled none) when the
point-count line fails to parse as %i. -/
theorem load_count_fail (l1 l2 l3 : Line) (rest : List Line)
    (hp : parseI (chomp l3) = none) :
    Polygon.load (l1 :: l2 :: l3 :: rest) = none := by
  simp only [Polygon.load, readLine]
  rw [hp]

/-- Polygon::load aborts when the point count parses negative
(the new[] allocation failure). -/
theorem load_neg_count (l1 l2 l3 : Line) (rest : List Line) (a : Int) (r2 : Line)
    (hp : parseI (chomp l3) = some (a, r2)) (ha : a < 0) :
    Polygon.load (l1 :: l2 :: l3 :: rest) = none := by
  simp only [Polygon.load, readLine]
  rw [hp]
  simp only [if_pos ha]

/-- With a parsed nonnegative point count, Polygon::load reduces to
the point-reading loop; the denominator line only fills the nenner field
and cannot fail. -/
theorem load_pos (l1 l2 l3 : Line) (rest : List Line) (a : Int) (r2 : Line)
    (hp : parseI (chomp l3) = some (a, r2)) (ha : ¬ a < 0) :
    Polygon.load (l1 :: l2 :: l3 :: rest) =
      (loadPointsLoop a.toNat ⟨rest, l3⟩ true (0, 0, 0, 0)).map fun w =>
        { points := w.1,
          nenner := match parseLLD (chomp l1) with
                    | some (v, _) => v
                    | none => 2 ^ 25,
          xmin := w.2.1.1, xmax := w.2.1.2.1, ymin := w.2.1.2.2.1, ymax := w.2.1.2.2.2,
          useprepare := false, yprepare := fun _ => 0 } := by
  simp only [Polygon.load, readLine]
  rw [hp]
  simp only [if_neg ha]
  cases hlp : loadPointsLoop a.toNat ⟨rest, l3⟩ true (0, 0, 0, 0) with
  | none => rfl
  | some w =>
    obtain ⟨pts, bb, r3⟩ := w
    rfl

/-- C9: for every polygon, saving with Polygon::save and
reloading the written record with Polygon::load succeeds and reproduces
the identical vertex sequence (same pointcount, same (x, y) pairs in the
same order) and the identical denominator. -/
theorem save_load_roundtrip (r0 r1 : Int) (p : Polygon) :
    ∃ q, Polygon.load (Polygon.save r0 r1 p) = some q ∧
      q.points = p.points ∧ q.nenner = p.nenner := by
  have hp : parseI (chomp (printInt (p.points.length : Int))) =
      some ((p.points.length : Int), []) := by
    rw [chomp_keep _ (printInt_ge32 _)]
    have h2 := parseI_print (p.points.length : Int) [] (Or.inl rfl)
    rwa [List.append_nil] at h2
  have ha : ¬ ((p.points.length : Int) < 0) := by omega
  obtain ⟨bb2, rd2, hloop⟩ := loadPointsLoop_print p.points [['.']] true (0, 0, 0, 0)
    (printInt (p.points.length : Int))
  have hload := load_pos (printInt p.nenner)
    (printInt r0 ++ [','] ++ printInt r1 ++ [','] ++ printInt r0 ++ [','] ++ printInt r1)
    (printInt (p.points.length : Int))
    ((p.points.map fun q => printInt q.x ++ [','] ++ printInt q.y) ++ [['.']])
    (p.points.length : Int) [] hp ha
  have ht : ((p.points.length : Int)).toNat = p.points.length := by omega
  rw [ht, hloop] at hload
  rw [chomp_keep (printInt p.nenner) (printInt_ge32 p.nenner), parseLLD_printInt p.nenner]
    at hload
  simp only [Option.map_some'] at hload
  have hsave : Polygon.save r0 r1 p =
      printInt p.nenner ::
      (printInt r0 ++ [','] ++ printInt r1 ++ [','] ++ printInt r0 ++ [','] ++ printInt r1) ::
      printInt (p.points.length : Int) ::
      ((p.points.map fun q => printInt q.x ++ [','] ++ printInt q.y) ++ [['.']]) := rfl
  rw [hsave]
  exact ⟨_, hload, rfl, rfl⟩

/-- C8 (amended): which malformed persistence records are
fatal for Polygon::load.  (i) A point-count line that fails the %i parse
aborts the run; (ii) so does a negative point count; (iii) the
denominator and range lines never decide success, so a malformed
denominator line is not fatal (it silently falls back to the 1 << 25
default, the C8 counterexample); (iv) with a parsed nonnegative count
within the file, loading succeeds exactly when every point line parses
as %i,%i — a malformed point line aborts the run. -/
theorem load_fatal_characterization (l1 l2 l3 : Line) (rest : List Line) :
    (parseI (chomp l3) = none → Polygon.load (l1 :: l2 :: l3 :: rest) = none) ∧
    (∀ a r2, parseI (chomp l3) = some (a, r2) → a < 0 →
      Polygon.load (l1 :: l2 :: l3 :: rest) = none) ∧
    (∀ l1b l2b : Line, (Polygon.load (l1 :: l2 :: l3 :: rest)).isSome =
      (Polygon.load (l1b :: l2b :: l3 :: rest)).isSome) ∧
    (∀ a r2, parseI (chomp l3) = some (a, r2) → 0 ≤ a → a.toNat ≤ rest.length →
      ((Polygon.load (l1 :: l2 :: l3 :: rest)).isSome = true ↔
        ∀ l ∈ rest.take a.toNat, (parsePoint (chomp l)).isSome = true)) := by
  refine ⟨fun hp => load_count_fail l1 l2 l3 rest hp,
    fun a r2 hp ha => load_neg_count l1 l2 l3 rest a r2 hp ha, ?_, ?_⟩
  · intro l1b l2b
    cases hp : parseI (chomp l3) with
    | none => rw [load_count_fail l1 l2 l3 rest hp, load_count_fail l1b l2b l3 rest hp]
    | some v =>
      obtain ⟨a, r2⟩ := v
      by_cases ha : a < 0
      · rw [load_neg_count l1 l2 l3 rest a r2 hp ha,
          load_neg_count l1b l2b l3 rest a r2 hp ha]
      · rw [load_pos l1 l2 l3 rest a r2 hp ha, load_pos l1b l2b l3 rest a r2 hp ha,
          Option.isSome_map', Option.isSome_map']
  · intro a r2 hp ha hlen
    rw [load_pos l1 l2 l3 rest a r2 hp (by omega), Option.isSome_map',
      loadPointsLoop_isSome_eq, pointsOK_lines a.toNat rest l3 hlen]

/-- Witness for C8: on the record whose point-count line is the
letter q, the hypothesis of part (i) holds by evaluation and load aborts. -/
theorem load_fatal_witness :
    Polygon.load [['1'], ['2'], ['q'], ['3', ',', '4']] = none :=
  (load_fatal_characterization ['1'] ['2'] ['q'] [['3', ',', '4']]).1 (by decide)
